import Mathlib

set_option maxHeartbeats 1000000

/-!
Shallow embedding of the formstruct form-data parser (src/index.ts).

The source is TypeScript operating on dynamic JSON values.  The embedding
uses three models, all executable:

* a pure tree model of schemas (`JSchema`) and runtime values (`JVal`)
  covering `getByNext`, `getCurrentSchema`, `parseValue`, `getDefault`,
  `enhanceSchema`, `setNestedValue` and the parser facade.  JavaScript
  in-place mutation of the output tree is rendered as functional update;
  this is exact for a single invocation as long as consumed default values
  share no object substructure (the sharing case is modelled by the heap
  model below, cf. the C8 development).
* a graph model of schema documents (`GNode`, `RState`) for `resolveRef`,
  where JavaScript object identity is an index into a node list and
  `Object.setPrototypeOf` is an explicit proto link, so that cyclic
  documents and the visited-set guard can be stated faithfully.
* a heap model (`HVal`, `Heap`, `HSchema`) where objects are addressed
  cells, capturing aliasing between the precomputed defaults template
  ("prefilled") and the output tree.

Modelling notes, applied throughout:
* `FormDataEntryValue` is modelled as `String` (the `File` case is not
  exercised by any claim).
* JavaScript numbers are modelled as `Option Int`, `none` standing for
  `NaN`; `Number(s)` is modelled for integer literals and the empty
  string (fractional/exponent literals map to `none`); no claim depends
  on fractional values.
* boolean JSON schemas (`true`/`false` as a schema) are not modelled;
  the source merely skips them in `enhanceSchema`/`getDefault`.
-/

/-- JSON-like runtime value, as produced by the parser.  `num none` models
a JavaScript `NaN`. -/
inductive JVal : Type where
  | null : JVal
  | bool : Bool → JVal
  | num : Option Int → JVal
  | str : String → JVal
  | arr : List JVal → JVal
  | obj : List (String × JVal) → JVal
deriving Repr

/-- JavaScript truthiness of a value: `undefined`, `null`, `false`, `0`,
`NaN` and the empty string are falsy, every object or array is truthy. -/
def JVal.truthy : JVal → Bool
  | .null => false
  | .bool b => b
  | .num none => false
  | .num (some n) => n != 0
  | .str s => s != ""
  | .arr _ => true
  | .obj _ => true

/-- Truthiness of a possibly-absent slot (`none` models `undefined`). -/
def truthyO : Option JVal → Bool
  | none => false
  | some v => v.truthy

/-- Decimal value of a digit run. -/
def digitsToNat (ds : List Char) : Nat :=
  ds.foldl (fun n c => n * 10 + (c.toNat - '0'.toNat)) 0

/-- Model of the JavaScript `Number(s)` conversion, restricted to integer
literals: the empty string converts to `0`, an optional-sign run of digits
to its value, anything else to `NaN` (`none`).  Fractional or exponent
literals and surrounding whitespace are out of the modelled scope; no
claim exercises them. -/
def jsNumber (s : String) : Option Int :=
  match s.data with
  | [] => some 0
  | c :: rest =>
    if c == '-' then
      if !rest.isEmpty && rest.all Char.isDigit then
        some (-(digitsToNat rest : Int))
      else none
    else if c == '+' then
      if !rest.isEmpty && rest.all Char.isDigit then
        some (digitsToNat rest)
      else none
    else if (c :: rest).all Char.isDigit then
      some (digitsToNat (c :: rest))
    else none

/-- Model of `Number.isInteger(Number(s))`, used by `setNestedValue` to
decide between creating a fresh array or a fresh object. -/
def strIsIntegerNumber (s : String) : Bool :=
  (jsNumber s).isSome

mutual
/-- A JSON schema node (the source's `JSONSchema7`), with the mutable
fields the source reads or writes: `type`, `properties`, `items`,
the three union keyword lists, the `nullable` flag written by
`enhanceSchema`, `default`, the `prefilled` defaults template written by
`enhanceSchema`, and the two named definition blocks.
Constructor argument order:
type, properties, items, anyOf, oneOf, allOf, nullable, default,
prefilled, $defs, definitions. -/
inductive JSchema : Type where
  | mk : Option String →
         Option (List (String × JSchema)) →
         Option SchemaOrList →
         Option (List JSchema) →
         Option (List JSchema) →
         Option (List JSchema) →
         Bool →
         Option JVal →
         Option (List (String × PrefEntry)) →
         Option (List (String × JSchema)) →
         Option (List (String × JSchema)) →
         JSchema

/-- The source's `items` field: a single schema or an ordered list
(tuple-style array). -/
inductive SchemaOrList : Type where
  | single : JSchema → SchemaOrList
  | list : List JSchema → SchemaOrList

/-- An entry of the `prefilled` template.  `getterArr` models the
`Object.defineProperty` getter installed for array-typed properties,
which yields a fresh empty array each time the template is consumed;
`val` is a plain data property. -/
inductive PrefEntry : Type where
  | val : JVal → PrefEntry
  | getterArr : PrefEntry
end

/-- Field accessor: the `type` keyword. -/
def JSchema.jtype : JSchema → Option String
  | .mk t _ _ _ _ _ _ _ _ _ _ => t

/-- Field accessor: the `properties` keyword. -/
def JSchema.props : JSchema → Option (List (String × JSchema))
  | .mk _ p _ _ _ _ _ _ _ _ _ => p

/-- Field accessor: the `items` keyword. -/
def JSchema.itemsF : JSchema → Option SchemaOrList
  | .mk _ _ i _ _ _ _ _ _ _ _ => i

/-- Field accessor: the `anyOf` keyword. -/
def JSchema.anyOfF : JSchema → Option (List JSchema)
  | .mk _ _ _ a _ _ _ _ _ _ _ => a

/-- Field accessor: the `oneOf` keyword. -/
def JSchema.oneOfF : JSchema → Option (List JSchema)
  | .mk _ _ _ _ o _ _ _ _ _ _ => o

/-- Field accessor: the `allOf` keyword. -/
def JSchema.allOfF : JSchema → Option (List JSchema)
  | .mk _ _ _ _ _ al _ _ _ _ _ => al

/-- Field accessor: the `nullable` flag (absent models as `false`,
matching the source's `!!_schema.nullable`). -/
def JSchema.nullableF : JSchema → Bool
  | .mk _ _ _ _ _ _ nb _ _ _ _ => nb

/-- Field accessor: the `default` keyword. -/
def JSchema.defaultF : JSchema → Option JVal
  | .mk _ _ _ _ _ _ _ d _ _ _ => d

/-- Field accessor: the `prefilled` template attached by `enhanceSchema`. -/
def JSchema.prefilledF : JSchema → Option (List (String × PrefEntry))
  | .mk _ _ _ _ _ _ _ _ pf _ _ => pf

/-- Field accessor: the `$defs` block. -/
def JSchema.defsF : JSchema → Option (List (String × JSchema))
  | .mk _ _ _ _ _ _ _ _ _ ds _ => ds

/-- Field accessor: the `definitions` block. -/
def JSchema.definitionsF : JSchema → Option (List (String × JSchema))
  | .mk _ _ _ _ _ _ _ _ _ _ ds => ds

/-- The empty, untyped schema `{}` used as the source's fallback. -/
def JSchema.empty : JSchema :=
  .mk none none none none none none false none none none none

/-- Functional update of the `nullable` field, modelling the spread
`{ ...s, nullable }` in `getCurrentSchema`. -/
def JSchema.withNullable : JSchema → Bool → JSchema
  | .mk t p i a o al _ d pf ds dfs, nb => .mk t p i a o al nb d pf ds dfs

/-- Lookup of a property schema by key.  JavaScript `key in properties` /
`properties[key]` on a plain object reads own keys; schema property
objects in scope here have no prototype chain. -/
def propLookup (props : Option (List (String × JSchema))) (k : String) :
    Option JSchema :=
  match props with
  | none => none
  | some ps => ps.lookup k

/-- The source's `_schema.anyOf || _schema.oneOf || _schema.allOf`:
the first present union keyword list (an empty list is a present —
truthy — array in JavaScript). -/
def unionAlts (s : JSchema) : Option (List JSchema) :=
  match s.anyOfF with
  | some a => some a
  | none =>
    match s.oneOfF with
    | some o => some o
    | none => s.allOfF

/-- Lookahead used for union-branch selection: absent, a number, or a
string.  The source's `next?: number | string` — array indices are
non-negative, so the numeric side is `Nat`. -/
def Look : Type := Option (Sum Nat String)

/-- Source `getByNext(schema, next)`: selects a schema from an array of
schemas.  A non-array argument is returned unchanged; with no lookahead
the first element (or `{}`) is returned; with a numeric lookahead the
first element with a (truthy) `items`; with a string lookahead the first
element whose `properties` contain that key (with a truthy value — all
property values are proper nodes in this model). -/
def getByNext (schema : Sum (List JSchema) JSchema) (next : Look) : JSchema :=
  match schema with
  | .inr s => s
  | .inl schemas =>
    match next with
    | none => schemas.headD JSchema.empty
    | some (.inl _) =>
      (schemas.find? fun s => s.itemsF.isSome).getD JSchema.empty
    | some (.inr k) =>
      (schemas.find? fun s => (propLookup s.props k).isSome).getD JSchema.empty

/-- Source `getCurrentSchema(schema, key, nextKey)`: resolves the schema
governing `key` under `schema`, selecting a union branch by lookahead and
carrying the union node's `nullable` flag onto the result via the spread
`{ ...getByNext(...), nullable }`. -/
def getCurrentSchema (schema : JSchema) (key : String) (nextKey : Look) :
    JSchema :=
  match (if schema.jtype == some "object" then propLookup schema.props key
         else none) with
  | some s =>
    match unionAlts s with
    | some alts => (getByNext (.inl alts) nextKey).withNullable s.nullableF
    | none => s
  | none =>
    if schema.jtype == some "array" then
      match schema.itemsF with
      | some (.single s) => getByNext (.inr s) nextKey
      | some (.list ss) => getByNext (.inl ss) nextKey
      | none => JSchema.empty
    else JSchema.empty

/-- Source `parseValue(schema, value)`: coerces a raw form value by the
leaf schema's type.  The `array` case recurses through
`getByNext(schema.items)` with no lookahead, inlined here per case so the
recursion is structural (`getByNext_items_inline` below proves the
inlining is exact); an array-typed schema without `items` would throw a
`TypeError` in the source (`undefined` used as a schema) — modelled as a
raw pass-through, unreachable in every claim. -/
def parseValue : JSchema → String → JVal
  | .mk t _ items _ _ _ nb _ _ _ _, value =>
    if nb && value == "" then .null
    else
      match t with
      | some "boolean" => .bool (value == "on" || value == "true")
      | some "integer" => .num (jsNumber value)
      | some "number" => .num (jsNumber value)
      | some "string" => .str value
      | some "array" =>
        match items with
        | some (.single s) => parseValue s value
        | some (.list (s :: _)) => parseValue s value
        | some (.list []) => .str value
        | none => .str value
      | some _ => .str value
      | none => .str value

/-- The value a `prefilled` entry yields when the template is consumed by
the object spread `{ ...schema.prefilled }`: a getter entry produces a
fresh empty array. -/
def prefEntryVal : PrefEntry → JVal
  | .val v => v
  | .getterArr => .arr []

/-- The per-property rule of `getDefault`'s on-the-fly synthesis (the
if/else-if chain of source lines 200–213): explicit `default` first,
then `boolean → false`, then union-with-null → `null`; a property
matching no rule contributes no entry. -/
def synthEntry (sub : JSchema) : Option JVal :=
  match sub.defaultF with
  | some d => some d
  | none =>
    if sub.jtype == some "boolean" then some (.bool false)
    else
      match unionAlts sub with
      | some alts =>
        if alts.any fun s => s.jtype == some "null" then some .null
        else none
      | none => none

/-- The on-the-fly defaults mapping `getDefault` synthesises for an
object node (source lines 194–215): one keyed assignment per matching
property, in property order — with the distinct keys of a JavaScript
properties object, the built object is this filterMap. -/
def synthDefaults (props : List (String × JSchema)) : List (String × JVal) :=
  props.filterMap fun kv => (synthEntry kv.2).map fun v => (kv.1, v)

/-- Source `getDefault(schema)`: a shallow clone of the `prefilled`
template when present (getters firing), else the explicit `default`
verbatim, else an on-the-fly defaults object for object-typed nodes,
else `[]` for array-typed nodes, else no default (`none` models the
source's `undefined`). -/
def getDefault (schema : JSchema) : Option JVal :=
  match schema.prefilledF with
  | some pf => some (.obj (pf.map fun kv => (kv.1, prefEntryVal kv.2)))
  | none =>
    match schema.defaultF with
    | some d => some d
    | none =>
      match schema.jtype with
      | some "object" =>
        some (.obj (synthDefaults (schema.props.getD [])))
      | some "array" => some (.arr [])
      | _ => none

/-- True when a property schema is a union with a null-typed alternative
(the source's `(anyOf || oneOf || allOf)?.some(s => typeof s === "object"
&& s.type === "null")`; all alternatives are proper nodes in this model). -/
def unionHasNull (s : JSchema) : Bool :=
  match unionAlts s with
  | some alts => alts.any fun a => a.jtype == some "null"
  | none => false

/-- The `prefilled` entry `enhanceSchema` produces for one property,
before considering the property's explicit `default` (the if/else-if
chain of source lines 76–97). -/
def prefilledBase (sub : JSchema) : Option PrefEntry :=
  if (unionAlts sub).isSome then
    if unionHasNull sub then some (.val .null) else none
  else if sub.jtype == some "null" then some (.val .null)
  else if sub.jtype == some "boolean" then some (.val (.bool false))
  else if sub.jtype == some "array" then some .getterArr
  else none

/-- The final `prefilled` entry for one property: the explicit `default`
(deep copy is the identity on pure values) overrides a plain entry.  An
array-typed property installs a getter-only property; the subsequent
`prefilled[key] = ...` assignment over it is a no-op in sloppy mode (and
a `TypeError` under strict mode — the combination array type plus
explicit default is excluded from the amended C6 statement). -/
def prefilledEntry (sub : JSchema) : Option PrefEntry :=
  match sub.defaultF with
  | some d =>
    match prefilledBase sub with
    | some .getterArr => some .getterArr
    | _ => some (.val d)
  | none => prefilledBase sub

/-- The `prefilled` template `enhanceSchema` attaches to an object node:
one entry per property that matches a rule, in property order. -/
def buildPrefilled (props : List (String × JSchema)) :
    List (String × PrefEntry) :=
  props.filterMap fun kv => (prefilledEntry kv.2).map fun e => (kv.1, e)

/-- The in-place `subSchema.nullable = true` marking `enhanceSchema`
performs on every union-with-null property. -/
def markNullableProps (props : List (String × JSchema)) :
    List (String × JSchema) :=
  props.map fun kv =>
    (kv.1, if unionHasNull kv.2 then kv.2.withNullable true else kv.2)

mutual
/-- Source `enhanceSchema(schema)`: attaches a `prefilled` template to an
object-typed node with properties (marking union-with-null properties
nullable), else recurses into array `items`; in both cases recurses into
the `$defs` and `definitions` blocks.  Note the source does NOT recurse
into the sub-schemas of an object node's properties. -/
def enhanceSchema : JSchema → JSchema
  | .mk t p items a o al nb d pf ds dfs =>
    if t == some "object" && p.isSome then
      .mk t (some (markNullableProps (p.getD []))) items a o al nb d
        (some (buildPrefilled (p.getD []))) (enhanceDefs ds) (enhanceDefs dfs)
    else if t == some "array" && items.isSome then
      .mk t p (enhanceItems items) a o al nb d pf (enhanceDefs ds)
        (enhanceDefs dfs)
    else
      .mk t p items a o al nb d pf (enhanceDefs ds) (enhanceDefs dfs)

/-- Recursion of `enhanceSchema` into `items` (single or tuple-style). -/
def enhanceItems : Option SchemaOrList → Option SchemaOrList
  | none => none
  | some (.single s) => some (.single (enhanceSchema s))
  | some (.list ss) => some (.list (enhanceList ss))

/-- Elementwise recursion of `enhanceSchema` into a schema list. -/
def enhanceList : List JSchema → List JSchema
  | [] => []
  | s :: ss => enhanceSchema s :: enhanceList ss

/-- Recursion of `enhanceSchema` into the values of a named definition
block. -/
def enhanceNamedList : List (String × JSchema) → List (String × JSchema)
  | [] => []
  | (k, s) :: rest => (k, enhanceSchema s) :: enhanceNamedList rest

/-- Recursion of `enhanceSchema` into an optional definition block. -/
def enhanceDefs :
    Option (List (String × JSchema)) → Option (List (String × JSchema))
  | none => none
  | some l => some (enhanceNamedList l)
end

/-- A string that is a canonical JavaScript array index — a digit run
with no leading zero (the only keys a JavaScript array read/write treats
as element access; the 2^32 bound is out of the modelled scope). -/
def parseIndex (s : String) : Option Nat :=
  match s.data with
  | [] => none
  | c :: rest =>
    if (c :: rest).all Char.isDigit && (!(c == '0') || rest.isEmpty) then
      some (digitsToNat (c :: rest))
    else none

/-- Property read `current[key]` on an output-tree value: object field
lookup or array element access; reading a property of a primitive (or a
non-index key of an array) yields `undefined`. -/
def jsGetField : JVal → String → Option JVal
  | .obj fs, k => fs.lookup k
  | .arr xs, k =>
    match parseIndex k with
    | some i => xs[i]?
    | none => none
  | _, _ => none

/-- Property write on an object field list: an existing key is updated in
place (JavaScript keeps the original insertion position), a new key is
appended. -/
def jsUpsert : List (String × JVal) → String → JVal → List (String × JVal)
  | [], k, v => [(k, v)]
  | (k', w) :: rest, k, v =>
    if k' == k then (k', v) :: rest else (k', w) :: jsUpsert rest k v

/-- Array element write `xs[i] = v`, extending the array when `i` is past
the end.  The holes JavaScript leaves are modelled as `null` (no claim
produces holes). -/
def setIdx (xs : List JVal) (i : Nat) (v : JVal) : List JVal :=
  if i < xs.length then xs.set i v
  else xs ++ List.replicate (i - xs.length) JVal.null ++ [v]

/-- Property write `current[key] = v` on an output-tree value.  A write
to a non-index key of an array attaches a named property invisible to
the structured result (modelled as a no-op), and a write on a primitive
is a no-op (a strict-mode `TypeError` in the source; unreachable in every
claim). -/
def jsSetField : JVal → String → JVal → JVal
  | .obj fs, k, v => .obj (jsUpsert fs k v)
  | .arr xs, k, v =>
    match parseIndex k with
    | some i => .arr (setIdx xs i v)
    | none => .arr xs
  | w, _, _ => w

/-- The final-segment seeding step of `setNestedValue` (source lines
286–291): when the final schema is array- or object-typed and the slot is
falsy, the slot is seeded with `getDefault` of that schema (which is
always defined for array- and object-typed schemas, so the `getD`
fallback below is unreachable). -/
def seedFinal (currentSchema : JSchema) (current : JVal) (key : String) :
    JVal :=
  let finalSchema := getCurrentSchema currentSchema key none
  if (finalSchema.jtype == some "array" || finalSchema.jtype == some "object")
      && !truthyO (jsGetField current key) then
    jsSetField current key ((getDefault finalSchema).getD .null)
  else current

/-- Source `setNestedValue(schema, rootObject, keys, value)`: walks the
key path, materialising missing containers from schema defaults (or a
fresh array/object chosen by whether the lookahead parses as an integer),
then writes the coerced value at the final segment — appending when the
slot holds a list, overwriting otherwise.  The source's in-place loop is
rendered as structural recursion over the path with functional update. -/
def setNestedValue (currentSchema : JSchema) (current : JVal)
    (keys : List String) (value : String) : JVal :=
  match keys with
  | [] => current
  | key :: keys' =>
    match keys' with
    | [] =>
      let finalSchema := getCurrentSchema currentSchema key none
      let cur1 := seedFinal currentSchema current key
      let parsed := parseValue finalSchema value
      match jsGetField cur1 key with
      | some (.arr xs) => jsSetField cur1 key (.arr (xs ++ [parsed]))
      | _ => jsSetField cur1 key parsed
    | nextKey :: _ =>
      let childSchema := getCurrentSchema currentSchema key
        (some (Sum.inr nextKey))
      let slot := jsGetField current key
      let slot1 :=
        if truthyO slot then slot.getD .null
        else
          match getDefault childSchema with
          | some d =>
            if d.truthy then d
            else if strIsIntegerNumber nextKey then .arr [] else .obj []
          | none =>
            if strIsIntegerNumber nextKey then .arr [] else .obj []
      jsSetField current key (setNestedValue childSchema slot1 keys' value)

/-- The global rewrite of every bracketed numeric segment `[n]` to `.n`
(the source's `key.replace(/\[(\d+)]/g, ".$1")`), character by character:
a `[` followed by one or more digits and `]` is rewritten, anything else
is copied and scanning resumes one character later, exactly as the regex
engine advances.  The fuel argument (instantiated with the input length,
which every step at least consumes) keeps the recursion structural so
closed runs compute in the kernel. -/
def normBrackets : Nat → List Char → List Char
  | 0, cs => cs
  | fuel + 1, cs =>
    match cs with
    | [] => []
    | c :: rest =>
      if c == '[' then
        let ds := rest.takeWhile Char.isDigit
        let rest1 := rest.dropWhile Char.isDigit
        if rest1.head? == some ']' && !ds.isEmpty then
          '.' :: ds ++ normBrackets fuel rest1.tail
        else c :: normBrackets fuel rest
      else c :: normBrackets fuel rest

/-- Split a character list at every occurrence of a separator, keeping
empty segments — the behaviour of JavaScript `String.split` with a
one-character separator. -/
def splitOnChar (sep : Char) : List Char → List String
  | [] => [""]
  | c :: rest =>
    if c == sep then "" :: splitOnChar sep rest
    else
      match splitOnChar sep rest with
      | s :: ss => String.mk (c :: s.data) :: ss
      | [] => [String.mk [c]]

/-- Key normalisation of the parser facade: bracket rewrite followed by a
split on `.` (JavaScript `split` keeps empty segments). -/
def normalizeKey (k : String) : List String :=
  splitOnChar '.' (normBrackets k.data.length k.data)

/-- One parser invocation on an already-resolved, already-enhanced
schema: seed the output tree from `getDefault` and fold the entries in
input order through `setNestedValue`.  A schema whose `getDefault` is
undefined would make the source crash on the first entry; the `getD`
fallback is unreachable for the object-typed roots of every claim. -/
def parseEntries (schema : JSchema) (entries : List (String × String)) :
    JVal :=
  entries.foldl
    (fun root kv => setNestedValue schema root (normalizeKey kv.1) kv.2)
    ((getDefault schema).getD (.obj []))

/-- Source `createParser(schema)` restricted to reference-free documents
(`resolveRef` is the identity on them; reference resolution itself is
modelled separately on the graph model below): enhancement once at
construction, then one `parseEntries` per invocation. -/
def createParserPure (schema : JSchema)
    (entries : List (String × String)) : JVal :=
  parseEntries (enhanceSchema schema) entries

/-! Graph model of `resolveRef` (source lines 9–60).  A schema document is
a list of nodes addressed by index; JavaScript object identity is the
index, `Object.setPrototypeOf` is an explicit proto link, and the `for in`
enumeration (which sees inherited enumerable keys) walks the proto chain.
Scalar fields are modelled only by their truthiness, which is all the
resolver inspects; the own `$ref` field is held separately (its string
value is skipped by the recursion in any case). -/

/-- A field value of a document node: a primitive carrying only its
truthiness, or a link to another node. -/
inductive GFieldVal : Type where
  | prim : Bool → GFieldVal
  | child : Nat → GFieldVal
deriving Repr, DecidableEq

/-- Truthiness of a field value (objects are always truthy). -/
def GFieldVal.truthyF : GFieldVal → Bool
  | .prim t => t
  | .child _ => true

/-- One node of a schema document: its own `$ref` string, if any, and its
other own enumerable fields in insertion order. -/
structure GNode : Type where
  ref : Option String
  fields : List (String × GFieldVal)
deriving Repr, DecidableEq

/-- The state `resolveRef` threads: the nodes (whose `$ref` fields it
deletes in place), the visited set, and the proto links installed by
`Object.setPrototypeOf`. -/
structure RState : Type where
  nodes : List GNode
  visited : List Nat
  proto : List (Nat × Nat)
deriving Repr, DecidableEq

/-- The node stored at an index, if the index is in range. -/
def nodeGet (st : RState) (id : Nat) : Option GNode :=
  st.nodes[id]?

/-- The own `$ref` field of a node. -/
def nodeRef (st : RState) (id : Nat) : Option String :=
  (nodeGet st id).bind GNode.ref

/-- The own fields of a node. -/
def ownFields (st : RState) (id : Nat) : List (String × GFieldVal) :=
  ((nodeGet st id).map GNode.fields).getD []

/-- The installed proto link of a node, if any. -/
def protoOf (st : RState) (id : Nat) : Option Nat :=
  st.proto.lookup id

/-- The proto chain starting at (and including) a node, cut off by fuel;
`st.nodes.length + 1` fuel covers every acyclic chain. -/
def protoChainF (st : RState) : Nat → Nat → List Nat
  | 0, _ => []
  | fuel + 1, id =>
    id :: (match protoOf st id with
           | some p => protoChainF st fuel p
           | none => [])

/-- Property read through the proto chain, as JavaScript property access
does after `Object.setPrototypeOf` links are installed. -/
def lookupFieldP (st : RState) : Nat → Nat → String → Option GFieldVal
  | 0, _, _ => none
  | fuel + 1, id, k =>
    match (ownFields st id).lookup k with
    | some v => some v
    | none =>
      match protoOf st id with
      | some p => lookupFieldP st fuel p k
      | none => none

/-- The `for in` enumeration over a node: own enumerable keys in order,
then proto-chain keys not shadowed by a name already seen. -/
def forInPairs (st : RState) : Nat → Nat → List String →
    List (String × GFieldVal)
  | 0, _, _ => []
  | fuel + 1, id, seen =>
    let own := (ownFields st id).filter fun kv => !(seen.contains kv.1)
    own ++ (match protoOf st id with
            | some p => forInPairs st fuel p (seen ++ own.map Prod.fst)
            | none => [])

/-- The object-valued children the recursion of `resolveRef` descends
into from a node (`for key in schema` with primitives skipped; array
values are nodes whose fields are their indices, and `forEach` over them
is the same elementwise descent). -/
def childIds (st : RState) (id : Nat) : List Nat :=
  (forInPairs st (st.nodes.length + 1) id []).filterMap fun kv =>
    match kv.2 with
    | .child c => some c
    | .prim _ => none

/-- The error message of source line 39. -/
def unresolvedMsg (r : String) : String :=
  "Unable to resolve reference: " ++ r

/-- The source's `ref.startsWith("#")`: the first character is `#`. -/
def startsHash (r : String) : Bool :=
  r.data.head? == some '#'

/-- Walk the segments of a root-relative pointer: each step reads
`resolved[segment]` (through the proto chain) and throws the source's
error when the result is absent or falsy.  A property read on a primitive
yields `undefined` in the modelled scope. -/
def traverseSegs (st : RState) (r : String) :
    GFieldVal → List String → Except String GFieldVal
  | cur, [] => .ok cur
  | cur, seg :: rest =>
    let nxt :=
      match cur with
      | .child id => lookupFieldP st (st.nodes.length + 1) id seg
      | .prim _ => none
    match nxt with
    | none => .error (unresolvedMsg r)
    | some v =>
      if v.truthyF then traverseSegs st r v rest
      else .error (unresolvedMsg r)

/-- Resolve a root-relative pointer `#/a/b/...` to a target node id
(source lines 32–41): drop `#/`, split on `/`, walk from the root.  A
traversal ending on a truthy primitive reaches
`Object.setPrototypeOf(schema, primitive)` in the source, which throws a
`TypeError`; the message differs, the construction-time failure does
not. -/
def traverseRef (st : RState) (root : Nat) (r : String) :
    Except String Nat :=
  match traverseSegs st r (.child root) (splitOnChar '/' (r.drop 2).data) with
  | .error e => .error e
  | .ok (.child id) => .ok id
  | .ok (.prim _) =>
    .error ("TypeError: Object prototype may only be an Object or null: "
            ++ r)

/-- Install a proto link, with the `Object.setPrototypeOf` cyclic-chain
check: linking a node below a chain that already contains it throws a
`TypeError`. -/
def setProto (st : RState) (id target : Nat) : Except String RState :=
  if (protoChainF st (st.nodes.length + 1) target).contains id then
    .error "TypeError: Cyclic __proto__ value"
  else .ok { st with proto := (id, target) :: st.proto }

/-- Source line 45: `delete schema.$ref`. -/
def deleteRef (st : RState) (id : Nat) : RState :=
  match nodeGet st id with
  | some n => { st with nodes := st.nodes.set id { n with ref := none } }
  | none => st

/-- Source line 21: `visited.add(schema)`. -/
def markVisited (st : RState) (id : Nat) : RState :=
  { st with visited := id :: st.visited }

/-- Sequential recursion of `resolveRef` into a list of children,
propagating the thrown error and the mutated state; `none` models fuel
exhaustion of the caller-supplied step. -/
def runChildren (f : RState → Nat → Option (Except String RState)) :
    RState → List Nat → Option (Except String RState)
  | st, [] => some (.ok st)
  | st, c :: cs =>
    match f st c with
    | none => none
    | some (.error e) => some (.error e)
    | some (.ok st') => runChildren f st' cs

/-- Source `resolveRef(schema, rootSchema, visited)` on the graph model,
with fuel bounding the recursion depth (the C9 theorem proves
`nodes.length + 1` fuel always suffices).  An already-visited node
returns immediately; otherwise the node is marked, its `$ref` — if any —
is handled (`"#"` links to the root and returns WITHOUT descending into
children; a other root-relative pointer is traversed, linked and deleted;
any other pointer is left untouched), and the recursion descends into the
node's object-valued children. -/
def resolveNode : Nat → Nat → RState → Nat → Option (Except String RState)
  | 0, _, _, _ => none
  | fuel + 1, root, st, id =>
    if st.visited.contains id then some (.ok st)
    else
      let st1 := markVisited st id
      match nodeRef st1 id with
      | some r =>
        if r == "#" then
          match setProto st1 id root with
          | .ok st2 => some (.ok st2)
          | .error e => some (.error e)
        else if startsHash r then
          match traverseRef st1 root r with
          | .error e => some (.error e)
          | .ok target =>
            match setProto st1 id target with
            | .error e => some (.error e)
            | .ok st2 =>
              let st3 := deleteRef st2 id
              runChildren (resolveNode fuel root) st3 (childIds st3 id)
        else runChildren (resolveNode fuel root) st1 (childIds st1 id)
      | none => runChildren (resolveNode fuel root) st1 (childIds st1 id)

/-- A schema document: its nodes, with the root at index 0. -/
structure GDoc : Type where
  nodes : List GNode
deriving Repr, DecidableEq

/-- The initial resolution state of a document. -/
def initState (doc : GDoc) : RState :=
  { nodes := doc.nodes, visited := [], proto := [] }

/-- The construction-time resolution pass `resolveRef(schema, schema)`:
run from the root with sufficient fuel (sufficiency is the C9 theorem;
the fuel-exhaustion branch is unreachable). -/
def resolvePass (doc : GDoc) : Except String RState :=
  match resolveNode (doc.nodes.length + 1) 0 (initState doc) 0 with
  | some r => r
  | none => .error "out of fuel"

/-- The number of node indices of the document not yet visited: the
measure that shrinks as the pass marks nodes. -/
def unvisitedCount (st : RState) : Nat :=
  ((List.range st.nodes.length).filter fun i => !(st.visited.contains i)).length

/-! Heap model.  The pure tree model renders JavaScript mutation as
functional update, which is exact only while consumed default values
share no object substructure with the templates they were cloned from.
The heap model makes object identity explicit: compound values are
addressed cells, `{ ...prefilled }` is a shallow clone sharing the cell
addresses stored in the template, and property writes mutate cells in
place — exactly the aliasing the C8 claim is about. -/

/-- A heap value: a primitive, or the address of a compound cell. -/
inductive HVal : Type where
  | null : HVal
  | bool : Bool → HVal
  | num : Option Int → HVal
  | str : String → HVal
  | href : Nat → HVal
deriving Repr, DecidableEq

/-- A heap cell: an object (field list) or an array. -/
inductive HCell : Type where
  | hobj : List (String × HVal) → HCell
  | harr : List HVal → HCell
deriving Repr, DecidableEq

/-- The heap: cells addressed by index; allocation appends. -/
structure Heap : Type where
  cells : List HCell
deriving Repr, DecidableEq

/-- Allocate a fresh cell, returning its address. -/
def halloc (h : Heap) (c : HCell) : Heap × Nat :=
  ({ cells := h.cells ++ [c] }, h.cells.length)

/-- Read a cell. -/
def heapGet (h : Heap) (a : Nat) : Option HCell :=
  h.cells[a]?

/-- Overwrite a cell in place. -/
def heapSet (h : Heap) (a : Nat) (c : HCell) : Heap :=
  { cells := h.cells.set a c }

/-- Truthiness of a heap value (a reference is always an object, hence
truthy). -/
def HVal.htruthy : HVal → Bool
  | .null => false
  | .bool b => b
  | .num none => false
  | .num (some n) => n != 0
  | .str s => s != ""
  | .href _ => true

/-- Truthiness of a possibly-absent heap slot. -/
def hTruthyO : Option HVal → Bool
  | none => false
  | some v => v.htruthy

/-- A `prefilled` entry in the heap model: a plain value (an object
default stores the address of the deep copy made at enhancement time —
the address, not a fresh copy per consumption), or the fresh-array
getter. -/
inductive HPrefEntry : Type where
  | val : HVal → HPrefEntry
  | getterArr : HPrefEntry
deriving Repr, DecidableEq

mutual
/-- Heap-model schema node; same shape as `JSchema` except that `default`
is a heap value (an object default is the address of the cell the schema
document itself holds) and `prefilled` entries are heap values. -/
inductive HSchema : Type where
  | mk : Option String →
         Option (List (String × HSchema)) →
         Option HSchemaOrList →
         Option (List HSchema) →
         Option (List HSchema) →
         Option (List HSchema) →
         Bool →
         Option HVal →
         Option (List (String × HPrefEntry)) →
         Option (List (String × HSchema)) →
         Option (List (String × HSchema)) →
         HSchema

/-- Heap-model `items`. -/
inductive HSchemaOrList : Type where
  | single : HSchema → HSchemaOrList
  | list : List HSchema → HSchemaOrList
end

/-- Field accessor: `type`. -/
def HSchema.jtype : HSchema → Option String
  | .mk t _ _ _ _ _ _ _ _ _ _ => t

/-- Field accessor: `properties`. -/
def HSchema.props : HSchema → Option (List (String × HSchema))
  | .mk _ p _ _ _ _ _ _ _ _ _ => p

/-- Field accessor: `items`. -/
def HSchema.itemsF : HSchema → Option HSchemaOrList
  | .mk _ _ i _ _ _ _ _ _ _ _ => i

/-- Field accessor: `anyOf`. -/
def HSchema.anyOfF : HSchema → Option (List HSchema)
  | .mk _ _ _ a _ _ _ _ _ _ _ => a

/-- Field accessor: `oneOf`. -/
def HSchema.oneOfF : HSchema → Option (List HSchema)
  | .mk _ _ _ _ o _ _ _ _ _ _ => o

/-- Field accessor: `allOf`. -/
def HSchema.allOfF : HSchema → Option (List HSchema)
  | .mk _ _ _ _ _ al _ _ _ _ _ => al

/-- Field accessor: `nullable`. -/
def HSchema.nullableF : HSchema → Bool
  | .mk _ _ _ _ _ _ nb _ _ _ _ => nb

/-- Field accessor: `default`. -/
def HSchema.defaultF : HSchema → Option HVal
  | .mk _ _ _ _ _ _ _ d _ _ _ => d

/-- Field accessor: `prefilled`. -/
def HSchema.prefilledF : HSchema → Option (List (String × HPrefEntry))
  | .mk _ _ _ _ _ _ _ _ pf _ _ => pf

/-- Field accessor: the `$defs` block. -/
def HSchema.defsF : HSchema → Option (List (String × HSchema))
  | .mk _ _ _ _ _ _ _ _ _ ds _ => ds

/-- Field accessor: the `definitions` block. -/
def HSchema.definitionsF : HSchema → Option (List (String × HSchema))
  | .mk _ _ _ _ _ _ _ _ _ _ ds => ds

/-- The empty schema `{}` in the heap model. -/
def HSchema.hempty : HSchema :=
  .mk none none none none none none false none none none none

/-- Nullable update (the spread of `getCurrentSchema`). -/
def HSchema.hwithNullable : HSchema → Bool → HSchema
  | .mk t p i a o al _ d pf ds dfs, nb => .mk t p i a o al nb d pf ds dfs

/-- Property schema lookup, heap model. -/
def hPropLookup (props : Option (List (String × HSchema))) (k : String) :
    Option HSchema :=
  match props with
  | none => none
  | some ps => ps.lookup k

/-- The first present union keyword list, heap model. -/
def hUnionAlts (s : HSchema) : Option (List HSchema) :=
  match s.anyOfF with
  | some a => some a
  | none =>
    match s.oneOfF with
    | some o => some o
    | none => s.allOfF

/-- Source `getByNext`, heap model. -/
def hGetByNext (schema : Sum (List HSchema) HSchema) (next : Look) :
    HSchema :=
  match schema with
  | .inr s => s
  | .inl schemas =>
    match next with
    | none => schemas.headD HSchema.hempty
    | some (.inl _) =>
      (schemas.find? fun s => s.itemsF.isSome).getD HSchema.hempty
    | some (.inr k) =>
      (schemas.find? fun s => (hPropLookup s.props k).isSome).getD
        HSchema.hempty

/-- Source `getCurrentSchema`, heap model. -/
def hGetCurrentSchema (schema : HSchema) (key : String) (nextKey : Look) :
    HSchema :=
  match (if schema.jtype == some "object" then hPropLookup schema.props key
         else none) with
  | some s =>
    match hUnionAlts s with
    | some alts => (hGetByNext (.inl alts) nextKey).hwithNullable s.nullableF
    | none => s
  | none =>
    if schema.jtype == some "array" then
      match schema.itemsF with
      | some (.single s) => hGetByNext (.inr s) nextKey
      | some (.list ss) => hGetByNext (.inl ss) nextKey
      | none => HSchema.hempty
    else HSchema.hempty

/-- Source `parseValue`, heap model (primitive results only; the same
inlining of `getByNext` as in the pure model). -/
def hParseValue : HSchema → String → HVal
  | .mk t _ items _ _ _ nb _ _ _ _, value =>
    if nb && value == "" then .null
    else
      match t with
      | some "boolean" => .bool (value == "on" || value == "true")
      | some "integer" => .num (jsNumber value)
      | some "number" => .num (jsNumber value)
      | some "string" => .str value
      | some "array" =>
        match items with
        | some (.single s) => hParseValue s value
        | some (.list (s :: _)) => hParseValue s value
        | some (.list []) => .str value
        | none => .str value
      | some _ => .str value
      | none => .str value

/-- The on-the-fly defaults synthesis of `getDefault`, heap model: an
explicit object default contributes the schema document's OWN cell
address verbatim (source line 201 stores `element.default` by
reference). -/
def hSynthDefaults (props : List (String × HSchema)) :
    List (String × HVal) :=
  props.foldl
    (fun acc kv =>
      let element := kv.2
      match element.defaultF with
      | some d => acc ++ [(kv.1, d)]
      | none =>
        if element.jtype == some "boolean" then acc ++ [(kv.1, .bool false)]
        else
          match hUnionAlts element with
          | some alts =>
            if alts.any fun s => s.jtype == some "null" then
              acc ++ [(kv.1, .null)]
            else acc
          | none => acc)
    []

/-- Consume the `prefilled` template: the spread `{ ...prefilled }`
allocates ONE fresh object whose fields hold the template's stored values
— getter entries fire and allocate a fresh empty array, but a `val` entry
holding an address is copied as that address, so the clone and the
template share the referenced cell. -/
def hClonePrefilled (h : Heap) (pf : List (String × HPrefEntry)) :
    Heap × List (String × HVal) :=
  pf.foldl
    (fun acc kv =>
      match kv.2 with
      | .val v => (acc.1, acc.2 ++ [(kv.1, v)])
      | .getterArr =>
        let (h', a) := halloc acc.1 (.harr [])
        (h', acc.2 ++ [(kv.1, .href a)]))
    (h, [])

/-- Source `getDefault`, heap model: clone the template (shallowly),
else return the explicit default verbatim (sharing the document's cell),
else allocate the on-the-fly object or the fresh empty array. -/
def hGetDefault (schema : HSchema) (h : Heap) : Option HVal × Heap :=
  match schema.prefilledF with
  | some pf =>
    let (h1, fields) := hClonePrefilled h pf
    let (h2, a) := halloc h1 (.hobj fields)
    (some (.href a), h2)
  | none =>
    match schema.defaultF with
    | some d => (some d, h)
    | none =>
      match schema.jtype with
      | some "object" =>
        let (h1, a) := halloc h (.hobj (hSynthDefaults (schema.props.getD [])))
        (some (.href a), h1)
      | some "array" =>
        let (h1, a) := halloc h (.harr [])
        (some (.href a), h1)
      | _ => (none, h)

/-- Fold a value-copying step over an object's fields, threading the
heap. -/
def hCopyFieldsWith (f : Heap → HVal → HVal × Heap) :
    Heap → List (String × HVal) → Heap × List (String × HVal)
  | h, [] => (h, [])
  | h, (k, v) :: rest =>
    let (v', h1) := f h v
    let (h2, rest') := hCopyFieldsWith f h1 rest
    (h2, (k, v') :: rest')

/-- Fold a value-copying step over an array's elements, threading the
heap. -/
def hCopyListWith (f : Heap → HVal → HVal × Heap) :
    Heap → List HVal → Heap × List HVal
  | h, [] => (h, [])
  | h, v :: rest =>
    let (v', h1) := f h v
    let (h2, rest') := hCopyListWith f h1 rest
    (h2, v' :: rest')

/-- The deep copy `JSON.parse(JSON.stringify(x))` of enhancement (source
line 99): fresh cells for every compound value.  Fuel bounds the depth;
`cells.length + 1` covers every acyclic heap value, and `JSON.stringify`
itself throws on cycles. -/
def hDeepCopy : Nat → Heap → HVal → HVal × Heap
  | 0, h, v => (v, h)
  | fuel + 1, h, v =>
    match v with
    | .href a =>
      match heapGet h a with
      | some (.hobj fs) =>
        let (h1, fs') := hCopyFieldsWith (hDeepCopy fuel) h fs
        let (h2, b) := halloc h1 (.hobj fs')
        (.href b, h2)
      | some (.harr xs) =>
        let (h1, xs') := hCopyListWith (hDeepCopy fuel) h xs
        let (h2, b) := halloc h1 (.harr xs')
        (.href b, h2)
      | none => (.href a, h)
    | w => (w, h)

/-- The pre-default `prefilled` entry of one property, heap model. -/
def hPrefilledBase (sub : HSchema) : Option HPrefEntry :=
  if (hUnionAlts sub).isSome then
    if (match hUnionAlts sub with
        | some alts => alts.any fun a => a.jtype == some "null"
        | none => false) then some (.val .null) else none
  else if sub.jtype == some "null" then some (.val .null)
  else if sub.jtype == some "boolean" then some (.val (.bool false))
  else if sub.jtype == some "array" then some .getterArr
  else none

/-- Build the `prefilled` template in the heap model: the deep copy of an
explicit default is allocated ONCE here, and its address is what every
later consumption will share. -/
def hBuildPrefilled (h : Heap) (props : List (String × HSchema)) :
    Heap × List (String × HPrefEntry) :=
  props.foldl
    (fun acc kv =>
      let base := hPrefilledBase kv.2
      match kv.2.defaultF with
      | some d =>
        match base with
        | some .getterArr => (acc.1, acc.2 ++ [(kv.1, .getterArr)])
        | _ =>
          let (d', h1) := hDeepCopy (acc.1.cells.length + 1) acc.1 d
          (h1, acc.2 ++ [(kv.1, .val d')])
      | none =>
        match base with
        | some e => (acc.1, acc.2 ++ [(kv.1, e)])
        | none => acc)
    (h, [])

/-- The nullable marking of enhancement, heap model. -/
def hMarkNullableProps (props : List (String × HSchema)) :
    List (String × HSchema) :=
  props.map fun kv =>
    (kv.1,
      if (match hUnionAlts kv.2 with
          | some alts => alts.any fun a => a.jtype == some "null"
          | none => false)
      then kv.2.hwithNullable true else kv.2)

mutual
/-- Source `enhanceSchema`, heap model: identical traversal to the pure
`enhanceSchema`, threading the heap for the deep copies of explicit
defaults. -/
def enhanceH : HSchema → Heap → HSchema × Heap
  | .mk t p items a o al nb d pf ds dfs, h =>
    if t == some "object" && p.isSome then
      let (h1, pf') := hBuildPrefilled h (p.getD [])
      let (ds', h2) := enhanceHDefs ds h1
      let (dfs', h3) := enhanceHDefs dfs h2
      (.mk t (some (hMarkNullableProps (p.getD []))) items a o al nb d
        (some pf') ds' dfs', h3)
    else if t == some "array" && items.isSome then
      let (items', h1) := enhanceHItems items h
      let (ds', h2) := enhanceHDefs ds h1
      let (dfs', h3) := enhanceHDefs dfs h2
      (.mk t p items' a o al nb d pf ds' dfs', h3)
    else
      let (ds', h2) := enhanceHDefs ds h
      let (dfs', h3) := enhanceHDefs dfs h2
      (.mk t p items a o al nb d pf ds' dfs', h3)

/-- Heap-model enhancement recursion into `items`. -/
def enhanceHItems : Option HSchemaOrList → Heap → Option HSchemaOrList × Heap
  | none, h => (none, h)
  | some (.single s), h =>
    let (s', h1) := enhanceH s h
    (some (.single s'), h1)
  | some (.list ss), h =>
    let (ss', h1) := enhanceHList ss h
    (some (.list ss'), h1)

/-- Heap-model enhancement recursion over a schema list. -/
def enhanceHList : List HSchema → Heap → List HSchema × Heap
  | [], h => ([], h)
  | s :: ss, h =>
    let (s', h1) := enhanceH s h
    let (ss', h2) := enhanceHList ss h1
    (s' :: ss', h2)

/-- Heap-model enhancement recursion over a named definition list. -/
def enhanceHNamed :
    List (String × HSchema) → Heap → List (String × HSchema) × Heap
  | [], h => ([], h)
  | (k, s) :: rest, h =>
    let (s', h1) := enhanceH s h
    let (rest', h2) := enhanceHNamed rest h1
    ((k, s') :: rest', h2)

/-- Heap-model enhancement recursion into an optional definition block. -/
def enhanceHDefs :
    Option (List (String × HSchema)) → Heap →
    Option (List (String × HSchema)) × Heap
  | none, h => (none, h)
  | some l, h =>
    let (l', h1) := enhanceHNamed l h
    (some l', h1)
end

/-- Property read `current[key]` where `current` is the cell at an
address. -/
def hReadProp (h : Heap) (a : Nat) (k : String) : Option HVal :=
  match heapGet h a with
  | some (.hobj fs) => fs.lookup k
  | some (.harr xs) =>
    match parseIndex k with
    | some i => xs[i]?
    | none => none
  | none => none

/-- In-place field update of an object field list. -/
def hUpsert : List (String × HVal) → String → HVal → List (String × HVal)
  | [], k, v => [(k, v)]
  | (k', w) :: rest, k, v =>
    if k' == k then (k', v) :: rest else (k', w) :: hUpsert rest k v

/-- Array element write with extension, heap model. -/
def hSetIdx (xs : List HVal) (i : Nat) (v : HVal) : List HVal :=
  if i < xs.length then xs.set i v
  else xs ++ List.replicate (i - xs.length) HVal.null ++ [v]

/-- Property write `current[key] = v`: mutates the cell at the address in
place. -/
def hWriteProp (h : Heap) (a : Nat) (k : String) (v : HVal) : Heap :=
  match heapGet h a with
  | some (.hobj fs) => heapSet h a (.hobj (hUpsert fs k v))
  | some (.harr xs) =>
    match parseIndex k with
    | some i => heapSet h a (.harr (hSetIdx xs i v))
    | none => h
  | none => h

/-- Source `setNestedValue`, heap model: the walk mutates cells in place,
so a descent into a cell shared with a `prefilled` template (or with the
schema document's own default object) mutates that artifact. -/
def hSetNestedValue (currentSchema : HSchema) (h : Heap) (a : Nat)
    (keys : List String) (value : String) : Heap :=
  match keys with
  | [] => h
  | key :: keys' =>
    match keys' with
    | [] =>
      let finalSchema := hGetCurrentSchema currentSchema key none
      let h1 :=
        if (finalSchema.jtype == some "array"
            || finalSchema.jtype == some "object")
            && !hTruthyO (hReadProp h a key) then
          let (dflt, h') := hGetDefault finalSchema h
          hWriteProp h' a key (dflt.getD .null)
        else h
      let parsed := hParseValue finalSchema value
      match hReadProp h1 a key with
      | some (.href b) =>
        match heapGet h1 b with
        | some (.harr xs) => heapSet h1 b (.harr (xs ++ [parsed]))
        | _ => hWriteProp h1 a key parsed
      | _ => hWriteProp h1 a key parsed
    | nextKey :: _ =>
      let childSchema := hGetCurrentSchema currentSchema key
        (some (Sum.inr nextKey))
      let slot := hReadProp h a key
      let (target, h1) :=
        if hTruthyO slot then (slot, h)
        else
          let (dflt, h') := hGetDefault childSchema h
          let chosen : HVal × Heap :=
            match dflt with
            | some d =>
              if d.htruthy then (d, h')
              else if strIsIntegerNumber nextKey then
                let (h'', b) := halloc h' (.harr [])
                (.href b, h'')
              else
                let (h'', b) := halloc h' (.hobj [])
                (.href b, h'')
            | none =>
              if strIsIntegerNumber nextKey then
                let (h'', b) := halloc h' (.harr [])
                (.href b, h'')
              else
                let (h'', b) := halloc h' (.hobj [])
                (.href b, h'')
          (some chosen.1, hWriteProp chosen.2 a key chosen.1)
      match target with
      | some (.href b) => hSetNestedValue childSchema h1 b keys' value
      | _ => h1

/-- One parser invocation, heap model: seed the root from `getDefault`
and fold the entries through `hSetNestedValue`.  The non-reference root
cases are unreachable for the object-typed schemas considered. -/
def hParse (schema : HSchema) (h : Heap) (entries : List (String × String)) :
    Heap × HVal :=
  let (rootOpt, h1) := hGetDefault schema h
  match rootOpt with
  | some (.href a) =>
    (entries.foldl
      (fun hh kv => hSetNestedValue schema hh a (normalizeKey kv.1) kv.2)
      h1, .href a)
  | some v => (h1, v)
  | none => (h1, .null)

/-- Read a heap value back as a pure tree for statements (fuel bounds the
depth; adequate for the acyclic outputs considered). -/
def readback : Nat → Heap → HVal → JVal
  | 0, _, _ => .null
  | fuel + 1, h, v =>
    match v with
    | .href a =>
      match heapGet h a with
      | some (.hobj fs) => .obj (fs.map fun kv => (kv.1, readback fuel h kv.2))
      | some (.harr xs) => .arr (xs.map fun w => readback fuel h w)
      | none => .null
    | .null => .null
    | .bool b => .bool b
    | .num n => .num n
    | .str s => .str s

/-! Specification-side definitions (phrased from the spec's wording, to be
compared with the source translations above) and the concrete documents
the claim theorems evaluate. -/

/-- The defaults-template entry the specification describes for one
property: the explicit default overrides; a union property contributes
null exactly when it has a null-typed alternative; otherwise a null-typed
property contributes null, a boolean-typed one false, an array-typed one
an empty list. -/
def claimedEntry (sub : JSchema) : Option JVal :=
  match sub.defaultF with
  | some d => some d
  | none =>
    match unionAlts sub with
    | some _ => if unionHasNull sub then some .null else none
    | none =>
      if sub.jtype == some "null" then some .null
      else if sub.jtype == some "boolean" then some (.bool false)
      else if sub.jtype == some "array" then some (.arr [])
      else none

/-- The defaults template the specification describes for an object
node's property list. -/
def claimedTemplate (props : List (String × JSchema)) :
    List (String × JVal) :=
  props.filterMap fun kv => (claimedEntry kv.2).map fun v => (kv.1, v)

/-- The properties on which `getDefault`'s synthesis agrees with the
template enhancement attaches: a property with an explicit default must
not be array-typed (the template keeps the getter there), and a property
without one must not be null- or array-typed (rules the synthesis lacks)
nor combine union alternatives with a boolean type (the synthesis checks
the boolean type first, enhancement the union first). -/
def c7Compatible (sub : JSchema) : Bool :=
  match sub.defaultF with
  | some _ => !(sub.jtype == some "array")
  | none =>
    match unionAlts sub with
    | some _ => !(sub.jtype == some "boolean")
    | none =>
      !(sub.jtype == some "null") && !(sub.jtype == some "array")

/-- Whether an `Except` result is a success. -/
def isOkE (e : Except String RState) : Bool :=
  match e with
  | .ok _ => true
  | .error _ => false

/-- A string-typed leaf schema. -/
def exStr : JSchema :=
  .mk (some "string") none none none none none false none none none none

/-- A number-typed leaf schema. -/
def exNum : JSchema :=
  .mk (some "number") none none none none none false none none none none

/-- An array-of-strings schema. -/
def exArrStr : JSchema :=
  .mk (some "array") none (some (.single exStr)) none none none false none
    none none none

/-- C1 document: an object whose property `name` is an array of
strings. -/
def exC1 : JSchema :=
  .mk (some "object") (some [("name", exArrStr)]) none none none none false
    none none none none

/-- C10: a union alternative that is an array of numbers (declares
`items`, the alternative an integer lookahead would pick). -/
def exAltArr : JSchema :=
  .mk (some "array") none (some (.single exNum)) none none none false none
    none none none

/-- C10: a union alternative that is an object declaring the literal
property `"0"`. -/
def exAltObj0 : JSchema :=
  .mk (some "object") (some [("0", exStr)]) none none none none false none
    none none none

/-- C10 document: property `u` is a union of the two alternatives
above. -/
def exC10 : JSchema :=
  .mk (some "object")
    (some [("u", .mk none none none (some [exAltArr, exAltObj0]) none none
                   false none none none none)])
    none none none none false none none none none

/-- C10 fallback document: property `u` is a union whose only alternative
declares `items` but no property `"0"`. -/
def exC10b : JSchema :=
  .mk (some "object")
    (some [("u", .mk none none none (some [exAltArr]) none none false none
                   none none none)])
    none none none none false none none none none

/-- C6: an object-typed node with properties, nested as a property of the
root. -/
def exC6inner : JSchema :=
  .mk (some "object") (some [("q", exStr)]) none none none none false none
    none none none

/-- C6 document: the root object owns the nested object through its
`properties`. -/
def exC6 : JSchema :=
  .mk (some "object") (some [("p", exC6inner)]) none none none none false
    none none none none

/-- C7 document: an object node (no template, no default) with one
array-typed property. -/
def exC7 : JSchema :=
  .mk (some "object") (some [("a", exArrStr)]) none none none none false
    none none none none

/-- C8, heap model: the string leaf `x`. -/
def c8x : HSchema :=
  .mk (some "string") none none none none none false none none none none

/-- C8, heap model: property `p`, an object with property `x` and an
explicit object default — the document's default object is the heap cell
at address 0. -/
def c8p : HSchema :=
  .mk (some "object") (some [("x", c8x)]) none none none none false
    (some (.href 0)) none none none

/-- C8, heap model: the root object. -/
def c8root : HSchema :=
  .mk (some "object") (some [("p", c8p)]) none none none none false none
    none none none

/-- C8: the construction-time heap holding the document's default object
`{}` at address 0. -/
def c8h0 : Heap := ⟨[.hobj []]⟩

/-- C8, pure-model twin of the document, for the template-respecting
expectation. -/
def c8pure : JSchema :=
  .mk (some "object")
    (some [("p", .mk (some "object") (some [("x", exStr)]) none none none
                   none false (some (.obj [])) none none none)])
    none none none none false none none none none

/-- C5 document: the root (0) carries `type` and `properties` (1);
`properties.a` (2) is a bare-root reference `#` that also owns a child
`foo` (3) whose pointer `#/nope` cannot be traversed. -/
def exC5doc : GDoc :=
  ⟨[⟨none, [("type", .prim true), ("properties", .child 1)]⟩,
    ⟨none, [("a", .child 2)]⟩,
    ⟨some "#", [("foo", .child 3)]⟩,
    ⟨some "#/nope", []⟩]⟩

/-- C5 failing document: the root (0) carries `type` and `properties`
(1); `properties.b` (2) holds the untraversable pointer `#/nope` and
lies on the pass's path, so construction throws. -/
def exC5faildoc : GDoc :=
  ⟨[⟨none, [("type", .prim true), ("properties", .child 1)]⟩,
    ⟨none, [("b", .child 2)]⟩,
    ⟨some "#/nope", []⟩]⟩

/-- C9 witness document: a binary-tree schema with a root property and
two mutually recursive children referencing `#/definitions/node` —
the circular-reference shape of the repository's tests. -/
def exC9doc : GDoc :=
  ⟨[⟨none, [("type", .prim true), ("properties", .child 1),
            ("definitions", .child 2)]⟩,
    ⟨none, [("root", .child 3)]⟩,
    ⟨none, [("node", .child 4)]⟩,
    ⟨some "#/definitions/node", []⟩,
    ⟨none, [("type", .prim true), ("properties", .child 5)]⟩,
    ⟨none, [("value", .child 6), ("left", .child 7), ("right", .child 8)]⟩,
    ⟨none, [("type", .prim true)]⟩,
    ⟨some "#/definitions/node", []⟩,
    ⟨some "#/definitions/node", []⟩]⟩

/-- A reference-free two-node document used by witnesses. -/
def exPlainDoc : GDoc :=
  ⟨[⟨none, [("type", .prim true), ("properties", .child 1)]⟩,
    ⟨none, []⟩]⟩

/-- Value view of a `prefilled` template: each entry as the value its
consumption yields. -/
def prefValues (pf : List (String × PrefEntry)) : List (String × JVal) :=
  pf.map fun kv => (kv.1, prefEntryVal kv.2)

/-- C8: construction — resolution is trivial (no references) and
enhancement allocates the deep copy of the default at address 1. -/
def c8s1 : HSchema := (enhanceH c8root c8h0).1

/-- C8: the heap after construction. -/
def c8h1 : Heap := (enhanceH c8root c8h0).2

/-- C8: first invocation, writing `p.x = "v"`. -/
def c8run1 : Heap × HVal := hParse c8s1 c8h1 [("p.x", "v")]

/-- C8: second invocation, on an EMPTY entry sequence. -/
def c8run2 : Heap × HVal := hParse c8s1 c8run1.1 []

/-- The final state of the resolution pass on the C5 document: nodes
unchanged, nodes 0, 1, 2 visited (node 3 never reached — node 2's
bare-root reference returns early), node 2 linked to the root. -/
def stC5 : RState := ⟨exC5doc.nodes, [2, 1, 0], [(2, 0)]⟩

/-- The final state of the resolution pass on the C9 document: all nine
nodes visited once, the three referencing nodes linked — not copied —
to the shared definition node 4, their pointers removed. -/
def stC9 : RState :=
  ⟨[⟨none, [("type", .prim true), ("properties", .child 1),
            ("definitions", .child 2)]⟩,
    ⟨none, [("root", .child 3)]⟩,
    ⟨none, [("node", .child 4)]⟩,
    ⟨none, []⟩,
    ⟨none, [("type", .prim true), ("properties", .child 5)]⟩,
    ⟨none, [("value", .child 6), ("left", .child 7), ("right", .child 8)]⟩,
    ⟨none, [("type", .prim true)]⟩,
    ⟨none, []⟩,
    ⟨none, []⟩],
   [4, 2, 8, 7, 6, 5, 3, 1, 0],
   [(8, 4), (7, 4), (3, 4)]⟩

/-- Well-formedness of a resolution state: no proto link hangs on an
index outside the node list (initially there are no links at all, and
the pass only links real nodes). -/
def WFState (st : RState) : Prop :=
  ∀ i, st.nodes.length ≤ i → protoOf st i = none

/-- The invariant a successful `resolveNode` call establishes between its
input and output states: visited only grows, no node is created or
destroyed, the unvisited count never increases, duplicate-freeness of the
visited list is preserved, proto links and reference fields of
already-visited nodes are stable, unvisited nodes are untouched, a
newly-visited node whose reference was the bare root `#` ends linked to
the root, a newly-visited node retains no root-relative pointer other
than `#`, and well-formedness is preserved. -/
def ResolveInv (root : Nat) (st st' : RState) : Prop :=
  (∀ i, i ∈ st.visited → i ∈ st'.visited) ∧
  st'.nodes.length = st.nodes.length ∧
  unvisitedCount st' ≤ unvisitedCount st ∧
  (st.visited.Nodup → st'.visited.Nodup) ∧
  (∀ i, i ∈ st.visited → protoOf st' i = protoOf st i) ∧
  (∀ i, i ∈ st.visited → nodeRef st' i = nodeRef st i) ∧
  (∀ j, j ∉ st'.visited →
     nodeRef st' j = nodeRef st j ∧ protoOf st' j = protoOf st j) ∧
  (∀ j, j ∈ st'.visited → j ∉ st.visited →
     (nodeRef st j = some "#" → protoOf st' j = some root)) ∧
  (∀ j, j ∈ st'.visited → j ∉ st.visited →
     ∀ r, nodeRef st' j = some r → r = "#" ∨ startsHash r = false) ∧
  (WFState st → WFState st')

/-! Theorems.  One main theorem per claim (with witnesses and
counterexamples as required), preceded by the shared helper lemmas. -/

/-- C3: for every schema node marked nullable, coercing the raw empty
string returns null, regardless of the node's declared primitive type. -/
theorem C3_nullable_empty_coerces_null (s : JSchema)
    (h : s.nullableF = true) : parseValue s "" = JVal.null := by
  cases s with
  | mk t p i a o al nb d pf ds dfs =>
    simp only [JSchema.nullableF] at h
    subst h
    unfold parseValue
    simp

/-- C3 witness: a nullable number-typed node coerces the empty string to
null. -/
theorem C3_witness :
    (JSchema.mk (some "number") none none none none none true none none
      none none).nullableF = true
    ∧ parseValue (JSchema.mk (some "number") none none none none none true
        none none none none) "" = JVal.null :=
  ⟨rfl, C3_nullable_empty_coerces_null _ rfl⟩

/-- C4: for every boolean-typed schema not preempted by the
nullable-empty-string rule, coercion yields true exactly on the literals
`on` and `true`, and false on every other literal. -/
theorem C4_boolean_coercion (s : JSchema) (v : String)
    (ht : s.jtype = some "boolean") (h : s.nullableF = false ∨ v ≠ "") :
    parseValue s v = JVal.bool (v == "on" || v == "true") := by
  cases s with
  | mk t p i a o al nb d pf ds dfs =>
    simp only [JSchema.jtype] at ht
    subst ht
    rcases h with h | h
    · simp only [JSchema.nullableF] at h
      subst h
      unfold parseValue
      simp
    · have hv : (v == "") = false := by
        simp [h]
      unfold parseValue
      simp [hv]

/-- C4 witness: the literals `false` and `on` on a plain boolean-typed
node. -/
theorem C4_witness :
    parseValue (JSchema.mk (some "boolean") none none none none none false
      none none none none) "false" = JVal.bool false
    ∧ parseValue (JSchema.mk (some "boolean") none none none none none
        false none none none none) "on" = JVal.bool true :=
  ⟨(C4_boolean_coercion
      (.mk (some "boolean") none none none none none false none none none
        none) "false" rfl (Or.inl rfl)).trans (by rfl),
   (C4_boolean_coercion
      (.mk (some "boolean") none none none none none false none none none
        none) "on" rfl (Or.inl rfl)).trans (by rfl)⟩

/-- C2: for an object-typed node whose property is a union, branch
selection picks the first alternative when there is no lookahead, the
first alternative declaring `items` for a numeric lookahead, the first
alternative whose properties contain the lookahead key otherwise, and the
empty untyped schema when nothing matches — always carrying the union
node's precomputed nullable flag. -/
theorem C2_union_branch_selection (s sub : JSchema) (alts : List JSchema)
    (k : String) (next : Look)
    (hty : s.jtype = some "object")
    (hsub : propLookup s.props k = some sub)
    (halts : unionAlts sub = some alts) :
    getCurrentSchema s k next =
      JSchema.withNullable
        (match next with
         | none => alts.headD JSchema.empty
         | some (.inl _) =>
           (alts.find? fun a => a.itemsF.isSome).getD JSchema.empty
         | some (.inr nk) =>
           (alts.find? fun a => (propLookup a.props nk).isSome).getD
             JSchema.empty)
        sub.nullableF := by
  have h1 : getCurrentSchema s k next =
      (getByNext (.inl alts) next).withNullable sub.nullableF := by
    unfold getCurrentSchema
    rw [hty]
    simp [hsub, halts]
  rw [h1]
  rcases next with _ | ⟨n | nk⟩ <;> rfl

/-- C2 witness: the C10 document's union property under the string
lookahead `0` selects the alternative declaring that property. -/
theorem C2_witness :
    getCurrentSchema exC10 "u" (some (Sum.inr "0"))
      = JSchema.withNullable exAltObj0 false := by
  rw [C2_union_branch_selection exC10
      (.mk none none none (some [exAltArr, exAltObj0]) none none false none
        none none none)
      [exAltArr, exAltObj0] "u" (some (Sum.inr "0")) rfl rfl rfl]
  rfl

/-- C10: the parser facade normalises `name[n]` to string segments, so a
union property followed by a numeric index selects by the literal digit
string against alternative properties (never by the declares-items rule):
on the C10 document the object alternative declaring property `"0"` wins
and the value lands uncoerced of the array alternative's number type; on
the fallback document no alternative matches, the empty schema is
selected and the value passes through uncoerced; the declares-items rule
would instead have picked the array alternative; and in general every
string lookahead — digit strings included — goes through the
properties-containment rule. -/
theorem C10_facade_string_lookahead :
    createParserPure exC10 [("u[0]", "5")]
      = .obj [("u", .obj [("0", .str "5")])]
    ∧ createParserPure exC10b [("u[0]", "5")]
      = .obj [("u", .arr [.str "5"])]
    ∧ getByNext (.inl [exAltArr, exAltObj0]) (some (.inl 0)) = exAltArr
    ∧ ∀ (alts : List JSchema) (d : String),
        getByNext (.inl alts) (some (.inr d)) =
          (alts.find? fun a => (propLookup a.props d).isSome).getD
            JSchema.empty :=
  ⟨rfl, rfl, rfl, fun _ _ => rfl⟩

/-- C1 helper: one repeated-scalar step appends the coerced value to the
accumulated list. -/
theorem c1_step (pre : List JVal) (v : String) :
    setNestedValue (enhanceSchema exC1) (.obj [("name", .arr pre)])
      ["name"] v
      = .obj [("name", .arr (pre ++ [.str v]))] := rfl

/-- C1 helper: folding repeated-scalar entries over any accumulated
prefix appends all values in input order. -/
theorem c1_fold (pre : List JVal) (vs : List String) :
    List.foldl
      (fun root kv =>
        setNestedValue (enhanceSchema exC1) root (normalizeKey kv.1) kv.2)
      (.obj [("name", .arr pre)]) (vs.map fun v => ("name", v))
      = .obj [("name", .arr (pre ++ vs.map JVal.str))] := by
  induction vs generalizing pre with
  | nil => simp
  | cons v vs ih =>
    have hk : normalizeKey "name" = ["name"] := rfl
    simp only [List.map_cons, List.foldl_cons, hk, c1_step]
    rw [ih (pre ++ [JVal.str v])]
    simp

/-- C1: on a schema with an array-of-strings property, bracketed indices
and repeated scalar keys both yield the list in input order; in general,
arbitrarily many repeated scalar entries accumulate strictly in input
order; and at the final segment of every assignment, a slot holding a
list receives the coerced value by append while any other slot is
overwritten. -/
theorem C1_list_append_order :
    createParserPure exC1 [("name[0]", "a"), ("name[1]", "b")]
      = .obj [("name", .arr [.str "a", .str "b"])]
    ∧ createParserPure exC1 [("name", "a"), ("name", "b")]
      = .obj [("name", .arr [.str "a", .str "b"])]
    ∧ (∀ vs : List String,
        createParserPure exC1 (vs.map fun v => ("name", v))
          = .obj [("name", .arr (vs.map JVal.str))])
    ∧ (∀ (cs : JSchema) (cur : JVal) (k v : String) (xs : List JVal),
        jsGetField (seedFinal cs cur k) k = some (.arr xs) →
        setNestedValue cs cur [k] v
          = jsSetField (seedFinal cs cur k) k
              (.arr (xs ++ [parseValue (getCurrentSchema cs k none) v])))
    ∧ (∀ (cs : JSchema) (cur : JVal) (k v : String),
        (∀ xs, jsGetField (seedFinal cs cur k) k ≠ some (.arr xs)) →
        setNestedValue cs cur [k] v
          = jsSetField (seedFinal cs cur k) k
              (parseValue (getCurrentSchema cs k none) v)) := by
  refine ⟨rfl, rfl, ?_, ?_, ?_⟩
  · intro vs
    have h0 : (getDefault (enhanceSchema exC1)).getD (.obj [])
        = JVal.obj [("name", .arr [])] := rfl
    unfold createParserPure parseEntries
    rw [h0]
    simpa using c1_fold [] vs
  · intro cs cur k v xs h
    simp only [setNestedValue, h]
  · intro cs cur k v h
    simp only [setNestedValue]

/-- C1 witness: the append conjunct applied at the C1 document's seeded
root, and the overwrite conjunct applied at a plain string property. -/
theorem C1_witness :
    setNestedValue (enhanceSchema exC1) (.obj [("name", .arr [])])
      ["name"] "z"
      = jsSetField
          (seedFinal (enhanceSchema exC1) (.obj [("name", .arr [])]) "name")
          "name"
          (.arr ([] ++ [parseValue
            (getCurrentSchema (enhanceSchema exC1) "name" none) "z"])) :=
  C1_list_append_order.2.2.2.1 (enhanceSchema exC1)
    (.obj [("name", .arr [])]) "name" "z" [] rfl

/-- C6 helper: per property, the template entry enhancement produces has
exactly the claimed value, provided an array-typed property declares no
explicit default (there the source's getter-only property ignores — or
under strict mode rejects — the override). -/
theorem prefilledEntry_value (sub : JSchema)
    (h : ¬(sub.jtype = some "array" ∧ sub.defaultF.isSome)) :
    (prefilledEntry sub).map prefEntryVal = claimedEntry sub := by
  unfold prefilledEntry prefilledBase claimedEntry
  cases hau : unionAlts sub with
  | some alts =>
    cases hd : sub.defaultF <;>
      by_cases hn : unionHasNull sub = true <;>
        simp [hau, hd, hn, prefEntryVal]
  | none =>
    cases hd : sub.defaultF with
    | some d =>
      have harr : ¬ sub.jtype = some "array" := fun hc => h ⟨hc, by simp [hd]⟩
      by_cases h0 : sub.jtype = some "null" <;>
        by_cases h1 : sub.jtype = some "boolean" <;>
          simp [hau, hd, h0, h1, harr, prefEntryVal, beq_iff_eq]
    | none =>
      by_cases h0 : sub.jtype = some "null"
      · simp [hau, hd, h0, prefEntryVal, beq_iff_eq]
      · by_cases h1 : sub.jtype = some "boolean"
        · simp [hau, hd, h0, h1, prefEntryVal, beq_iff_eq]
        · by_cases h2 : sub.jtype = some "array" <;>
            simp [hau, hd, h0, h1, h2, prefEntryVal, beq_iff_eq]

/-- Unfolding of `buildPrefilled` over one property. -/
theorem buildPrefilled_cons (kv : String × JSchema)
    (rest : List (String × JSchema)) :
    buildPrefilled (kv :: rest) =
      (match prefilledEntry kv.2 with
       | some e => (kv.1, e) :: buildPrefilled rest
       | none => buildPrefilled rest) := by
  simp only [buildPrefilled, List.filterMap_cons]
  cases prefilledEntry kv.2 <;> simp

/-- Unfolding of `claimedTemplate` over one property. -/
theorem claimedTemplate_cons (kv : String × JSchema)
    (rest : List (String × JSchema)) :
    claimedTemplate (kv :: rest) =
      (match claimedEntry kv.2 with
       | some v => (kv.1, v) :: claimedTemplate rest
       | none => claimedTemplate rest) := by
  simp only [claimedTemplate, List.filterMap_cons]
  cases claimedEntry kv.2 <;> simp

/-- C6 helper: the value view of the template enhancement builds equals
the claimed template, property by property. -/
theorem buildPrefilled_value (ps : List (String × JSchema))
    (h : ∀ kv ∈ ps, ¬(kv.2.jtype = some "array" ∧ kv.2.defaultF.isSome)) :
    prefValues (buildPrefilled ps) = claimedTemplate ps := by
  induction ps with
  | nil => rfl
  | cons kv rest ih =>
    have h1 := prefilledEntry_value kv.2 (h kv (List.mem_cons_self _ _))
    have h2 : ∀ kv' ∈ rest,
        ¬(kv'.2.jtype = some "array" ∧ kv'.2.defaultF.isSome) :=
      fun kv' hm => h kv' (List.mem_cons_of_mem _ hm)
    cases he : prefilledEntry kv.2 with
    | some e =>
      have hc : claimedEntry kv.2 = some (prefEntryVal e) := by
        rw [← h1, he]; rfl
      simp only [buildPrefilled_cons, claimedTemplate_cons, he, hc]
      simpa [prefValues] using ih h2
    | none =>
      have hc : claimedEntry kv.2 = none := by rw [← h1, he]; rfl
      simp [buildPrefilled_cons, claimedTemplate_cons, he, hc, ih h2]

/-- The named-definition recursion of enhancement is an elementwise
map. -/
theorem enhanceNamedList_eq_map (l : List (String × JSchema)) :
    enhanceNamedList l = l.map fun kv => (kv.1, enhanceSchema kv.2) := by
  induction l with
  | nil => rfl
  | cons kv rest ih => cases kv; simp [enhanceNamedList, ih]

/-- The list recursion of enhancement is an elementwise map. -/
theorem enhanceList_eq_map (l : List JSchema) :
    enhanceList l = l.map enhanceSchema := by
  induction l with
  | nil => rfl
  | cons s rest ih => simp [enhanceList, ih]

/-- The object branch of enhancement: the template is attached and the
union-with-null properties are marked nullable. -/
theorem enhance_object_branch (s : JSchema) (ps : List (String × JSchema))
    (ht : s.jtype = some "object") (hp : s.props = some ps) :
    (enhanceSchema s).prefilledF = some (buildPrefilled ps)
    ∧ (enhanceSchema s).props = some (markNullableProps ps) := by
  cases s with
  | mk t p i a o al nb d pf ds dfs =>
    simp only [JSchema.jtype] at ht
    simp only [JSchema.props] at hp
    subst ht; subst hp
    constructor <;> rfl

/-- C6 counterexample: after enhancement of the C6 document, the nested
node reached through the root's properties is object-typed with
properties yet carries NO defaults template — enhancement does not
recurse into the sub-schemas of an object node's properties. -/
theorem C6_counterexample :
    exC6inner.jtype = some "object"
    ∧ exC6inner.props.isSome = true
    ∧ propLookup (enhanceSchema exC6).props "p" = some exC6inner
    ∧ exC6inner.prefilledF = none :=
  ⟨rfl, rfl, rfl, rfl⟩

/-- C6 as amended: enhancement attaches to every object-typed node WITH
properties that it visits — the root, array item schemas (single or
tuple-style) and named definition blocks, but not nodes nested under
another object's properties — a template whose entries are the claimed
ones (explicit default overriding null-union/null/boolean/array rules),
marking union-with-null properties nullable; array-typed properties with
an explicit default are excluded, since the getter-only template property
the source installs ignores (strict mode: rejects) the override. -/
theorem C6_template_rules :
    (∀ (s : JSchema) (ps : List (String × JSchema)),
      s.jtype = some "object" → s.props = some ps →
      (∀ kv ∈ ps, ¬(kv.2.jtype = some "array" ∧ kv.2.defaultF.isSome)) →
      ((enhanceSchema s).prefilledF.map prefValues
          = some (claimedTemplate ps)
       ∧ (enhanceSchema s).props
           = some (ps.map fun kv =>
               (kv.1, if unionHasNull kv.2 then kv.2.withNullable true
                      else kv.2))))
    ∧ (∀ (s j : JSchema), s.jtype = some "array" →
        s.itemsF = some (.single j) →
        (enhanceSchema s).itemsF = some (.single (enhanceSchema j)))
    ∧ (∀ (s : JSchema) (js : List JSchema), s.jtype = some "array" →
        s.itemsF = some (.list js) →
        (enhanceSchema s).itemsF = some (.list (js.map enhanceSchema)))
    ∧ (∀ (s : JSchema) (l : List (String × JSchema)),
        s.defsF = some l →
        (enhanceSchema s).defsF
          = some (l.map fun kv => (kv.1, enhanceSchema kv.2)))
    ∧ (∀ (s : JSchema) (l : List (String × JSchema)),
        s.definitionsF = some l →
        (enhanceSchema s).definitionsF
          = some (l.map fun kv => (kv.1, enhanceSchema kv.2))) := by
  refine ⟨?_, ?_, ?_, ?_, ?_⟩
  · intro s ps ht hp h
    obtain ⟨h1, h2⟩ := enhance_object_branch s ps ht hp
    refine ⟨?_, h2⟩
    rw [h1]
    simp [buildPrefilled_value ps h]
  · intro s j ht hi
    cases s with
    | mk t p i a o al nb d pf ds dfs =>
      simp only [JSchema.jtype] at ht
      simp only [JSchema.itemsF] at hi
      subst ht; subst hi
      rfl
  · intro s js ht hi
    cases s with
    | mk t p i a o al nb d pf ds dfs =>
      simp only [JSchema.jtype] at ht
      simp only [JSchema.itemsF] at hi
      subst ht; subst hi
      simp [enhanceSchema, enhanceItems, JSchema.itemsF, enhanceList_eq_map]
  · intro s l hl
    cases s with
    | mk t p i a o al nb d pf ds dfs =>
      simp only [JSchema.defsF] at hl
      subst hl
      have hd : (enhanceSchema (.mk t p i a o al nb d pf (some l) dfs)).defsF
          = enhanceDefs (some l) := by
        unfold enhanceSchema
        split
        · rfl
        · split <;> rfl
      rw [hd]
      simp [enhanceDefs, enhanceNamedList_eq_map]
  · intro s l hl
    cases s with
    | mk t p i a o al nb d pf ds dfs =>
      simp only [JSchema.definitionsF] at hl
      subst hl
      have hd : (enhanceSchema
            (.mk t p i a o al nb d pf ds (some l))).definitionsF
          = enhanceDefs (some l) := by
        unfold enhanceSchema
        split
        · rfl
        · split <;> rfl
      rw [hd]
      simp [enhanceDefs, enhanceNamedList_eq_map]

/-- C6 witness: applied at the C1 document, the attached template maps
the array-typed property to the empty list. -/
theorem C6_witness :
    (enhanceSchema exC1).prefilledF.map prefValues
      = some (claimedTemplate [("name", exArrStr)]) :=
  (C6_template_rules.1 exC1 [("name", exArrStr)] rfl rfl
    (by
      intro kv hkv
      rw [List.mem_singleton] at hkv
      subst hkv
      rintro ⟨h1, h2⟩
      simp [exArrStr, JSchema.defaultF] at h2)).1

/-- C7 helper: on a compatible property, the on-the-fly synthesis rule
agrees with the value of the template entry enhancement would build. -/
theorem synthEntry_eq_prefilled (sub : JSchema)
    (h : c7Compatible sub = true) :
    synthEntry sub = (prefilledEntry sub).map prefEntryVal := by
  unfold synthEntry prefilledEntry prefilledBase c7Compatible at *
  cases hd : sub.defaultF with
  | some d =>
    rw [hd] at h
    have harr : (sub.jtype == some "array") = false := by
      simpa using h
    cases hau : unionAlts sub with
    | some alts =>
      by_cases hn : (alts.any fun s => s.jtype == some "null") = true <;>
        simp [hau, hd, hn, prefEntryVal]
    | none =>
      by_cases h0 : sub.jtype == some "null" <;>
        by_cases h1 : sub.jtype == some "boolean" <;>
          simp [hau, hd, h0, h1, harr, prefEntryVal]
  | none =>
    rw [hd] at h
    cases hau : unionAlts sub with
    | some alts =>
      rw [hau] at h
      have hb : (sub.jtype == some "boolean") = false := by simpa using h
      have hun : unionHasNull sub
          = alts.any fun s => s.jtype == some "null" := by
        unfold unionHasNull
        rw [hau]
      by_cases hn : (alts.any fun s => s.jtype == some "null") = true <;>
        simp [hau, hd, hn, hb, hun, prefEntryVal]
    | none =>
      rw [hau] at h
      have h0 : (sub.jtype == some "null") = false := by
        rcases Bool.and_eq_true .. |>.mp h with ⟨h0, _⟩
        simpa using h0
      have h2 : (sub.jtype == some "array") = false := by
        rcases Bool.and_eq_true .. |>.mp h with ⟨_, h2⟩
        simpa using h2
      by_cases h1 : sub.jtype == some "boolean" <;>
        simp [hau, hd, h0, h1, h2, prefEntryVal]

/-- C7 helper: on compatible property lists, the synthesised mapping
equals the value view of the template. -/
theorem synthDefaults_eq_template (ps : List (String × JSchema))
    (h : ∀ kv ∈ ps, c7Compatible kv.2 = true) :
    synthDefaults ps = prefValues (buildPrefilled ps) := by
  induction ps with
  | nil => rfl
  | cons kv rest ih =>
    have h1 := synthEntry_eq_prefilled kv.2 (h kv (List.mem_cons_self _ _))
    have h2 : ∀ kv' ∈ rest, c7Compatible kv'.2 = true :=
      fun kv' hm => h kv' (List.mem_cons_of_mem _ hm)
    cases he : prefilledEntry kv.2 with
    | some e =>
      have hs : synthEntry kv.2 = some (prefEntryVal e) := by rw [h1, he]; rfl
      simp only [synthDefaults, List.filterMap_cons, buildPrefilled_cons,
        he, hs]
      simpa [prefValues, synthDefaults] using ih h2
    | none =>
      have hs : synthEntry kv.2 = none := by rw [h1, he]; rfl
      simp only [synthDefaults, List.filterMap_cons, buildPrefilled_cons,
        he, hs]
      simpa [synthDefaults] using ih h2

/-- C7 counterexample: an object node with one array-typed property and
no template or default — the on-the-fly synthesis yields the EMPTY
mapping, while enhancement would have attached the template mapping the
property to the empty list. -/
theorem C7_counterexample :
    exC7.prefilledF = none ∧ exC7.defaultF = none
    ∧ exC7.jtype = some "object"
    ∧ getDefault exC7 = some (.obj [])
    ∧ (enhanceSchema exC7).prefilledF.map prefValues
        = some [("a", .arr [])]
    ∧ JVal.obj [] ≠ JVal.obj [("a", .arr [])] :=
  ⟨rfl, rfl, rfl, rfl, rfl, by simp⟩

/-- C7 as amended: for an object-typed node with no template and no
explicit default, `getDefault` synthesises a mapping over the immediate
properties by the explicit-default / boolean → false / union-with-null →
null rules, and this mapping equals (the value view of) the template
enhancement would have attached whenever every immediate property is
compatible: it declares an explicit default and is not array-typed, or —
lacking one — is neither null- nor array-typed and does not combine
union alternatives with a boolean type; the null-typed and array-typed
template rules have no counterpart in the synthesis, as the
counterexample shows. -/
theorem C7_synthesis_matches_template (s : JSchema)
    (ps : List (String × JSchema))
    (hpf : s.prefilledF = none) (hd : s.defaultF = none)
    (ht : s.jtype = some "object") (hp : s.props = some ps)
    (hc : ∀ kv ∈ ps, c7Compatible kv.2 = true) :
    getDefault s = some (.obj (prefValues (buildPrefilled ps)))
    ∧ (enhanceSchema s).prefilledF = some (buildPrefilled ps) := by
  constructor
  · have hgd : getDefault s = some (.obj (synthDefaults ps)) := by
      cases s with
      | mk t p i a o al nb d pf ds dfs =>
        simp only [JSchema.prefilledF] at hpf
        simp only [JSchema.defaultF] at hd
        simp only [JSchema.jtype] at ht
        simp only [JSchema.props] at hp
        subst hpf; subst hd; subst ht; subst hp
        rfl
    rw [hgd, synthDefaults_eq_template ps hc]
  · exact (enhance_object_branch s ps ht hp).1

/-- C7 witness: applied to an object node with one boolean-typed
property. -/
theorem C7_witness :
    getDefault (JSchema.mk (some "object")
        (some [("b", .mk (some "boolean") none none none none none false
          none none none none)])
        none none none none false none none none none)
      = some (.obj (prefValues (buildPrefilled
          [("b", .mk (some "boolean") none none none none none false none
            none none none)]))) :=
  (C7_synthesis_matches_template
    (JSchema.mk (some "object")
      (some [("b", .mk (some "boolean") none none none none none false
        none none none none)])
      none none none none false none none none none)
    [("b", .mk (some "boolean") none none none none none false none none
      none none)]
    rfl rfl rfl rfl
    (by
      intro kv hkv
      rw [List.mem_singleton] at hkv
      subst hkv
      rfl)).1

/-- C8: the code mutates its enhancement artifact.  On the C8 document,
construction deep-copies the property's object default into heap cell 1
and stores that ADDRESS in the `prefilled` template; the consumption
`{ ...prefilled }` clones only the top level, so the first invocation's
write to `p.x` lands in cell 1 — the template's own entry — and a second
invocation on an EMPTY submission returns the first invocation's data.
The final conjunct is the template-respecting expectation the claim
describes (the pure model, whose defaults hold no shared structure). -/
theorem C8_template_mutated_across_invocations :
    heapGet c8h1 1 = some (.hobj [])
    ∧ c8s1.prefilledF = some [("p", .val (.href 1))]
    ∧ heapGet c8run1.1 1 = some (.hobj [("x", .str "v")])
    ∧ readback 10 c8run2.1 c8run2.2
        = .obj [("p", .obj [("x", .str "v")])]
    ∧ createParserPure c8pure [] = .obj [("p", .obj [])] :=
  ⟨rfl, rfl, rfl, rfl, rfl⟩

/-- Membership form of a `contains` check on the visited list. -/
theorem contains_cons_nat (id : Nat) (vis : List Nat) (i : Nat) :
    (id :: vis).contains i = ((i == id) || vis.contains i) := by
  simp [List.contains, List.elem_cons]
  by_cases h : i = id <;> simp [h]

/-- A pointwise-weaker filter keeps at most as many elements. -/
theorem length_filter_le_mono (l : List Nat) (p q : Nat → Bool)
    (h : ∀ x, p x = true → q x = true) :
    (l.filter p).length ≤ (l.filter q).length := by
  induction l with
  | nil => simp
  | cons y ys ih =>
    by_cases hp : p y = true
    · have hq := h y hp
      simp [List.filter_cons, hp, hq]
      omega
    · simp only [List.filter_cons]
      rw [Bool.not_eq_true] at hp
      rw [hp]
      by_cases hq : q y = true <;> simp [hq] <;> omega

/-- A pointwise-weaker filter that loses a member keeps strictly fewer
elements. -/
theorem length_filter_lt (l : List Nat) (p q : Nat → Bool)
    (h : ∀ x, p x = true → q x = true) (x : Nat) (hx : x ∈ l)
    (hqx : q x = true) (hpx : p x = false) :
    (l.filter p).length < (l.filter q).length := by
  induction l with
  | nil => cases hx
  | cons y ys ih =>
    rcases List.mem_cons.mp hx with hy | hy
    · subst hy
      simp only [List.filter_cons, hpx, hqx]
      have := length_filter_le_mono ys p q h
      simp
      omega
    · by_cases hp : p y = true
      · have hq := h y hp
        simp [List.filter_cons, hp, hq]
        exact ih hy
      · simp only [List.filter_cons]
        rw [Bool.not_eq_true] at hp
        rw [hp]
        by_cases hq : q y = true <;> simp [hq]
        · have := ih hy
          omega
        · exact ih hy

/-- Marking a node never increases the unvisited count. -/
theorem unvisited_mark_le (st : RState) (id : Nat) :
    unvisitedCount (markVisited st id) ≤ unvisitedCount st := by
  unfold unvisitedCount markVisited
  apply length_filter_le_mono
  intro x hx
  rw [contains_cons_nat] at hx
  simp only [Bool.not_eq_true', Bool.or_eq_false_iff] at hx
  simpa using hx.2

/-- Marking an in-range, unvisited node strictly decreases the unvisited
count — the measure behind termination of the resolution pass. -/
theorem unvisited_mark_lt (st : RState) (id : Nat)
    (h1 : id < st.nodes.length) (h2 : st.visited.contains id = false) :
    unvisitedCount (markVisited st id) < unvisitedCount st := by
  unfold unvisitedCount markVisited
  apply length_filter_lt _ _ _ ?_ id
  · exact List.mem_range.mpr h1
  · simpa using h2
  · rw [contains_cons_nat]
    simp
  · intro x hx
    rw [contains_cons_nat] at hx
    simp only [Bool.not_eq_true', Bool.or_eq_false_iff] at hx
    simpa using hx.2

/-- Lookup through a freshly-prepended proto link. -/
theorem protoOf_lookup_cons (proto : List (Nat × Nat)) (id target j : Nat) :
    List.lookup j ((id, target) :: proto)
      = if j = id then some target else List.lookup j proto := by
  by_cases h : j = id
  · simp [List.lookup, h]
  · have hb : (j == id) = false := by simp [h]
    simp [List.lookup, hb, h]

/-- A reference field survives a deletion at a different index. -/
theorem nodeRef_deleteRef (st : RState) (id j : Nat) :
    nodeRef (deleteRef st id) j = if j = id then none else nodeRef st j := by
  unfold deleteRef nodeRef nodeGet
  cases hg : st.nodes[id]? with
  | none =>
    by_cases h : j = id
    · subst h
      simp [hg]
    · simp [h]
  | some n =>
    by_cases h : j = id
    · subst h
      have hlt : j < st.nodes.length := by
        by_contra hc
        rw [not_lt] at hc
        rw [List.getElem?_eq_none hc] at hg
        cases hg
      simp [List.getElem?_set, hlt]
    · simp [List.getElem?_set, h, Ne.symm h]

/-- Deleting a reference preserves the node count — the pass aliases,
it never copies. -/
theorem length_deleteRef (st : RState) (id : Nat) :
    (deleteRef st id).nodes.length = st.nodes.length := by
  unfold deleteRef
  cases nodeGet st id <;> simp

/-- A node with a reference field exists in the node list. -/
theorem nodeRef_some_lt (st : RState) (id : Nat) (r : String)
    (h : nodeRef st id = some r) : id < st.nodes.length := by
  unfold nodeRef nodeGet at h
  by_contra hc
  rw [not_lt] at hc
  rw [List.getElem?_eq_none hc] at h
  cases h

/-- The unvisited count depends only on the node count and the visited
list. -/
theorem unvisited_congr (st st' : RState)
    (hl : st'.nodes.length = st.nodes.length)
    (hv : st'.visited = st.visited) :
    unvisitedCount st' = unvisitedCount st := by
  unfold unvisitedCount
  rw [hl, hv]

/-- Bridge from a false `contains` to non-membership. -/
theorem mem_of_contains_false {vis : List Nat} {id : Nat}
    (h : vis.contains id = false) : id ∉ vis := by
  simpa using h

/-- The resolve invariant is reflexive. -/
theorem resolveInv_refl (root : Nat) (st : RState) :
    ResolveInv root st st := by
  refine ⟨fun i hi => hi, rfl, le_refl _, fun h => h, fun i _ => rfl,
    fun i _ => rfl, fun j _ => ⟨rfl, rfl⟩, ?_, ?_, fun h => h⟩
  · intro j hj hnj
    exact absurd hj hnj
  · intro j hj hnj
    exact absurd hj hnj

/-- The resolve invariant composes along successive calls. -/
theorem resolveInv_trans (root : Nat) (st1 st2 st3 : RState)
    (h12 : ResolveInv root st1 st2) (h23 : ResolveInv root st2 st3) :
    ResolveInv root st1 st3 := by
  obtain ⟨a1, a2, a3, a4, a5, a6, a7, a8, a9, a10⟩ := h12
  obtain ⟨b1, b2, b3, b4, b5, b6, b7, b8, b9, b10⟩ := h23
  refine ⟨fun i hi => b1 i (a1 i hi), b2.trans a2, le_trans b3 a3,
    fun h => b4 (a4 h), ?_, ?_, ?_, ?_, ?_, fun h => b10 (a10 h)⟩
  · intro i hi
    rw [b5 i (a1 i hi), a5 i hi]
  · intro i hi
    rw [b6 i (a1 i hi), a6 i hi]
  · intro j hj
    have hj2 : j ∉ st2.visited := fun hm => hj (b1 j hm)
    obtain ⟨c1, c2⟩ := a7 j hj2
    obtain ⟨d1, d2⟩ := b7 j hj
    exact ⟨d1.trans c1, d2.trans c2⟩
  · intro j hj3 hj1 href
    by_cases hj2 : j ∈ st2.visited
    · rw [b5 j hj2]
      exact a8 j hj2 hj1 href
    · refine b8 j hj3 hj2 ?_
      rw [(a7 j hj2).1, href]
  · intro j hj3 hj1 r hr
    by_cases hj2 : j ∈ st2.visited
    · rw [b6 j hj2] at hr
      exact a9 j hj2 hj1 r hr
    · exact b9 j hj3 hj2 r hr
theorem inv_step_children (root : Nat) (st : RState) (id : Nat) (st' : RState)
    (hv : st.visited.contains id = false)
    (hrefid : ∀ r, nodeRef st id = some r → (r ≠ "#" ∧ startsHash r = false))
    (hInner : ResolveInv root (markVisited st id) st') :
    ResolveInv root st st' := by
  obtain ⟨b1, b2, b3, b4, b5, b6, b7, b8, b9, b10⟩ := hInner
  have hid : id ∉ st.visited := mem_of_contains_false hv
  have hmem : ∀ i, i ∈ st.visited → i ∈ (markVisited st id).visited := by
    intro i hi
    exact List.mem_cons_of_mem _ hi
  refine ⟨fun i hi => b1 i (hmem i hi), b2, b3.trans (unvisited_mark_le st id),
    ?_, fun i hi => b5 i (hmem i hi), fun i hi => b6 i (hmem i hi),
    fun j hj => b7 j hj, ?_, ?_, b10⟩
  · intro hnd
    exact b4 (List.nodup_cons.mpr ⟨hid, hnd⟩)
  · intro j hj hjn href
    by_cases hji : j = id
    · subst hji
      exact absurd rfl (hrefid "#" href).1
    · refine b8 j hj ?_ href
      intro hm
      rcases List.mem_cons.mp hm with h | h
      · exact hji h
      · exact hjn h
  · intro j hj hjn r hr
    by_cases hji : j = id
    · subst hji
      have hm : j ∈ (markVisited st j).visited := List.mem_cons_self _ _
      rw [b6 j hm] at hr
      exact Or.inr (hrefid r hr).2
    · refine b9 j hj ?_ r hr
      intro hm
      rcases List.mem_cons.mp hm with h | h
      · exact hji h
      · exact hjn h

theorem setProto_ok_eq (st : RState) (id target : Nat) (st2 : RState)
    (h : setProto st id target = .ok st2) :
    st2 = { st with proto := (id, target) :: st.proto } := by
  unfold setProto at h
  split at h
  · cases h
  · cases h
    rfl

theorem inv_step_hash (root : Nat) (st : RState) (id : Nat) (st2 : RState)
    (hv : st.visited.contains id = false)
    (href : nodeRef st id = some "#")
    (hsp : setProto (markVisited st id) id root = .ok st2) :
    ResolveInv root st st2 := by
  have hid : id ∉ st.visited := mem_of_contains_false hv
  have hlt : id < st.nodes.length := nodeRef_some_lt st id "#" href
  have h2 := setProto_ok_eq _ _ _ _ hsp
  subst h2
  refine ⟨?_, rfl, unvisited_mark_le st id, ?_, ?_, fun i _ => rfl, ?_, ?_,
    ?_, ?_⟩
  · intro i hi
    exact List.mem_cons_of_mem _ hi
  · intro hnd
    exact List.nodup_cons.mpr ⟨hid, hnd⟩
  · intro i hi
    show List.lookup i ((id, root) :: st.proto) = protoOf st i
    rw [protoOf_lookup_cons]
    have : i ≠ id := fun he => hid (he ▸ hi)
    simp [this, protoOf]
  · intro j hj
    have hji : j ≠ id := by
      intro he
      subst he
      exact hj (List.mem_cons_self _ _)
    constructor
    · rfl
    · show List.lookup j ((id, root) :: st.proto) = protoOf st j
      rw [protoOf_lookup_cons]
      simp [hji, protoOf]
  · intro j hj hjn _
    have hji : j = id := by
      rcases List.mem_cons.mp hj with h | h
      · exact h
      · exact absurd h hjn
    subst hji
    show List.lookup j ((j, root) :: st.proto) = some root
    rw [protoOf_lookup_cons]
    simp
  · intro j hj hjn r hr
    have hji : j = id := by
      rcases List.mem_cons.mp hj with h | h
      · exact h
      · exact absurd h hjn
    subst hji
    have : nodeRef st j = some r := hr
    rw [href] at this
    cases this
    exact Or.inl rfl
  · intro hwf i hi
    show List.lookup i ((id, root) :: st.proto) = none
    rw [protoOf_lookup_cons]
    have hne : i ≠ id := by
      intro he
      subst he
      exact absurd hlt (not_lt.mpr hi)
    simp only [hne, if_false]
    exact hwf i hi

theorem deleteRef_visited (st : RState) (id : Nat) :
    (deleteRef st id).visited = st.visited := by
  unfold deleteRef
  cases nodeGet st id <;> rfl

theorem deleteRef_proto (st : RState) (id : Nat) :
    (deleteRef st id).proto = st.proto := by
  unfold deleteRef
  cases nodeGet st id <;> rfl

theorem inv_step_resolve (root : Nat) (st : RState) (id target : Nat)
    (st2 st' : RState) (r : String)
    (hv : st.visited.contains id = false)
    (href : nodeRef st id = some r) (hne : r ≠ "#")
    (hsp : setProto (markVisited st id) id target = .ok st2)
    (hInner : ResolveInv root (deleteRef st2 id) st') :
    ResolveInv root st st' := by
  have hid : id ∉ st.visited := mem_of_contains_false hv
  have hlt : id < st.nodes.length := nodeRef_some_lt st id r href
  have h2 := setProto_ok_eq _ _ _ _ hsp
  subst h2
  obtain ⟨b1, b2, b3, b4, b5, b6, b7, b8, b9, b10⟩ := hInner
  set st2 : RState :=
    { nodes := (markVisited st id).nodes,
      visited := (markVisited st id).visited,
      proto := (id, target) :: (markVisited st id).proto } with hst2
  set st3 : RState := deleteRef st2 id with hst3
  have hvis3 : st3.visited = id :: st.visited := by
    rw [hst3, deleteRef_visited]
    rfl
  have hlen3 : st3.nodes.length = st.nodes.length := by
    rw [hst3, length_deleteRef]
    rfl
  have hproto3 : ∀ j, protoOf st3 j
      = if j = id then some target else protoOf st j := by
    intro j
    show List.lookup j st3.proto = _
    rw [hst3, deleteRef_proto]
    exact protoOf_lookup_cons _ _ _ _
  have href3 : ∀ j, nodeRef st3 j = if j = id then none else nodeRef st j := by
    intro j
    rw [hst3, nodeRef_deleteRef]
    rfl
  have hmem3 : ∀ i, i ∈ st.visited → i ∈ st3.visited := by
    intro i hi
    rw [hvis3]
    exact List.mem_cons_of_mem _ hi
  have hid3 : id ∈ st3.visited := by
    rw [hvis3]
    exact List.mem_cons_self _ _
  have hneq_of_free : ∀ j, j ∉ st.visited → j ∈ st3.visited → j = id := by
    intro j hjn hj
    rw [hvis3] at hj
    rcases List.mem_cons.mp hj with h | h
    · exact h
    · exact absurd h hjn
  have huv3 : unvisitedCount st3 = unvisitedCount (markVisited st id) :=
    unvisited_congr _ _ (by rw [hlen3]; rfl) (by rw [hvis3]; rfl)
  refine ⟨fun i hi => b1 i (hmem3 i hi), by rw [b2, hlen3],
    ?_, ?_, ?_, ?_, ?_, ?_, ?_, ?_⟩
  · calc unvisitedCount st' ≤ unvisitedCount st3 := b3
      _ = unvisitedCount (markVisited st id) := huv3
      _ ≤ unvisitedCount st := unvisited_mark_le st id
  · intro hnd
    refine b4 ?_
    rw [hvis3]
    exact List.nodup_cons.mpr ⟨hid, hnd⟩
  · intro i hi
    have hne' : i ≠ id := fun he => hid (he ▸ hi)
    rw [b5 i (hmem3 i hi), hproto3 i]
    simp [hne']
  · intro i hi
    have hne' : i ≠ id := fun he => hid (he ▸ hi)
    rw [b6 i (hmem3 i hi), href3 i]
    simp [hne']
  · intro j hj
    have hj3 : j ∉ st3.visited := fun hm => hj (b1 j hm)
    have hne' : j ≠ id := fun he => hj3 (he ▸ hid3)
    obtain ⟨c1, c2⟩ := b7 j hj
    constructor
    · rw [c1, href3 j]
      simp [hne']
    · rw [c2, hproto3 j]
      simp [hne']
  · intro j hj hjn hrj
    by_cases hji : j = id
    · subst hji
      rw [href] at hrj
      cases hrj
      exact absurd rfl hne
    · have hj3 : j ∉ st3.visited := by
        intro hm
        exact hji (hneq_of_free j hjn hm)
      refine b8 j hj hj3 ?_
      rw [href3 j]
      simp [hji, hrj]
  · intro j hj hjn rr hrj
    by_cases hji : j = id
    · subst hji
      rw [b6 j hid3, href3 j] at hrj
      simp at hrj
    · have hj3 : j ∉ st3.visited := by
        intro hm
        exact hji (hneq_of_free j hjn hm)
      exact b9 j hj hj3 rr hrj
  · intro hwf
    refine b10 ?_
    intro i hi
    rw [hlen3] at hi
    have hne' : i ≠ id := by
      intro he
      subst he
      exact absurd hlt (not_lt.mpr hi)
    rw [hproto3 i]
    simp only [hne', if_false]
    exact hwf i hi

theorem runChildren_inv (root : Nat)
    (f : RState → Nat → Option (Except String RState))
    (hf : ∀ st c st', f st c = some (.ok st') → ResolveInv root st st') :
    ∀ (cs : List Nat) (st st' : RState),
      runChildren f st cs = some (.ok st') → ResolveInv root st st' := by
  intro cs
  induction cs with
  | nil =>
    intro st st' h
    unfold runChildren at h
    cases h
    exact resolveInv_refl root _
  | cons c cs ih =>
    intro st st' h
    unfold runChildren at h
    cases hc : f st c with
    | none => rw [hc] at h; cases h
    | some r =>
      rw [hc] at h
      cases r with
      | error e => cases h
      | ok st1 =>
        exact resolveInv_trans root st st1 st' (hf st c st1 hc) (ih st1 st' h)

theorem resolveNode_inv :
    ∀ (fuel root : Nat) (st : RState) (id : Nat) (st' : RState),
      resolveNode fuel root st id = some (.ok st') → ResolveInv root st st' := by
  intro fuel
  induction fuel with
  | zero =>
    intro root st id st' h
    cases h
  | succ fuel ih =>
    intro root st id st' h
    unfold resolveNode at h
    by_cases hv : st.visited.contains id = true
    · rw [if_pos hv] at h
      cases h
      exact resolveInv_refl root _
    · rw [if_neg hv] at h
      rw [Bool.not_eq_true] at hv
      simp only [] at h
      cases hr : nodeRef (markVisited st id) id with
      | none =>
        rw [hr] at h
        simp only [] at h
        refine inv_step_children root st id st' hv ?_
          (runChildren_inv root _ (fun a b c => ih root a b c) _ _ _ h)
        intro r hrr
        rw [show nodeRef st id = nodeRef (markVisited st id) id from rfl, hr]
          at hrr
        cases hrr
      | some r =>
        rw [hr] at h
        simp only [] at h
        by_cases hr1 : (r == "#") = true
        · rw [if_pos hr1] at h
          have hre : r = "#" := by simpa using hr1
          subst hre
          cases hsp : setProto (markVisited st id) id root with
          | ok st2 =>
            rw [hsp] at h
            simp only [] at h
            cases h
            exact inv_step_hash root st id _ hv hr hsp
          | error e =>
            rw [hsp] at h
            simp at h
        · rw [if_neg hr1] at h
          have hrne : r ≠ "#" := by simpa using hr1
          by_cases hr2 : startsHash r = true
          · rw [if_pos hr2] at h
            cases htr : traverseRef (markVisited st id) root r with
            | error e =>
              rw [htr] at h
              simp at h
            | ok target =>
              rw [htr] at h
              simp only [] at h
              cases hsp : setProto (markVisited st id) id target with
              | error e =>
            rw [hsp] at h
            simp at h
              | ok st2 =>
                rw [hsp] at h
                simp only [] at h
                exact inv_step_resolve root st id target st2 st' r hv hr hrne
                  hsp (runChildren_inv root _ (fun a b c => ih root a b c)
                    _ _ _ h)
          · rw [if_neg hr2] at h
            refine inv_step_children root st id st' hv ?_
              (runChildren_inv root _ (fun a b c => ih root a b c) _ _ _ h)
            intro r' hrr
            rw [show nodeRef st id = nodeRef (markVisited st id) id from rfl,
              hr] at hrr
            cases hrr
            exact ⟨hrne, by simpa using hr2⟩

theorem childIds_nil_of_oor (st : RState) (id : Nat) (hwf : WFState st)
    (hid : st.nodes.length ≤ id) : childIds st id = [] := by
  have h1 : ownFields st id = [] := by
    unfold ownFields nodeGet
    rw [List.getElem?_eq_none hid]
    rfl
  have h2 : protoOf st id = none := hwf id hid
  unfold childIds
  show (forInPairs st (st.nodes.length + 1) id []).filterMap _ = []
  rw [show st.nodes.length + 1 = st.nodes.length + 1 from rfl]
  simp only [forInPairs, h1, h2, List.filter_nil, List.nil_append]
  rfl

theorem runChildren_some (root fuel : Nat)
    (hf : ∀ st c, WFState st → unvisitedCount st < fuel →
      resolveNode fuel root st c ≠ none) :
    ∀ (cs : List Nat) (st : RState), WFState st →
      unvisitedCount st < fuel →
      runChildren (resolveNode fuel root) st cs ≠ none := by
  intro cs
  induction cs with
  | nil =>
    intro st _ _
    unfold runChildren
    simp
  | cons c cs ih =>
    intro st hwf hlt
    unfold runChildren
    cases hc : resolveNode fuel root st c with
    | none => exact absurd hc (hf st c hwf hlt)
    | some r =>
      cases r with
      | error e => simp
      | ok st1 =>
        have hinv := resolveNode_inv fuel root st c st1 hc
        have hwf1 := hinv.2.2.2.2.2.2.2.2.2 hwf
        have hle : unvisitedCount st1 ≤ unvisitedCount st := hinv.2.2.1
        exact ih st1 hwf1 (lt_of_le_of_lt hle hlt)

theorem resolveNode_some :
    ∀ (fuel root : Nat) (st : RState) (id : Nat), WFState st →
      unvisitedCount st < fuel → resolveNode fuel root st id ≠ none := by
  intro fuel
  induction fuel with
  | zero =>
    intro root st id _ h
    exact absurd h (Nat.not_lt_zero _)
  | succ fuel ih =>
    intro root st id hwf hlt
    unfold resolveNode
    by_cases hv : st.visited.contains id = true
    · rw [if_pos hv]
      simp
    · rw [if_neg hv]
      simp only []
      rw [Bool.not_eq_true] at hv
      have hwf1 : WFState (markVisited st id) := fun i hi => hwf i hi
      by_cases hid : id < st.nodes.length
      · have hlt1 : unvisitedCount (markVisited st id) < fuel := by
          have h1 := unvisited_mark_lt st id hid hv
          omega
        cases hr : nodeRef (markVisited st id) id with
        | none =>
          simp only []
          exact runChildren_some root fuel
            (fun a b hw hl => ih root a b hw hl) _ _ hwf1 hlt1
        | some r =>
          simp only []
          by_cases hr1 : (r == "#") = true
          · rw [if_pos hr1]
            cases setProto (markVisited st id) id root <;> simp
          · rw [if_neg hr1]
            by_cases hr2 : startsHash r = true
            · rw [if_pos hr2]
              cases htr : traverseRef (markVisited st id) root r with
              | error e => simp
              | ok target =>
                simp only []
                cases hsp : setProto (markVisited st id) id target with
                | error e => simp
                | ok st2 =>
                  simp only []
                  have h2 := setProto_ok_eq _ _ _ _ hsp
                  have hwf3 : WFState (deleteRef st2 id) := by
                    intro i hi
                    rw [length_deleteRef] at hi
                    show List.lookup i (deleteRef st2 id).proto = none
                    rw [deleteRef_proto, h2]
                    show List.lookup i ((id, target)
                      :: (markVisited st id).proto) = none
                    rw [protoOf_lookup_cons]
                    have hne : i ≠ id := by
                      intro he
                      subst he
                      rw [h2] at hi
                      exact absurd hid (not_lt.mpr hi)
                    simp only [hne, if_false]
                    exact hwf1 i (by rw [h2] at hi; exact hi)
                  have hlt3 : unvisitedCount (deleteRef st2 id) < fuel := by
                    have he : unvisitedCount (deleteRef st2 id)
                        = unvisitedCount (markVisited st id) := by
                      apply unvisited_congr
                      · rw [length_deleteRef, h2]
                      · rw [deleteRef_visited, h2]
                    rw [he]
                    exact hlt1
                  exact runChildren_some root fuel
                    (fun a b hw hl => ih root a b hw hl) _ _ hwf3 hlt3
            · rw [if_neg hr2]
              exact runChildren_some root fuel
                (fun a b hw hl => ih root a b hw hl) _ _ hwf1 hlt1
      · have hoor : st.nodes.length ≤ id := not_lt.mp hid
        have hr : nodeRef (markVisited st id) id = none := by
          unfold nodeRef nodeGet
          show ((markVisited st id).nodes[id]?).bind GNode.ref = none
          rw [show (markVisited st id).nodes = st.nodes from rfl,
            List.getElem?_eq_none hoor]
          rfl
        have hcid : childIds (markVisited st id) id = [] :=
          childIds_nil_of_oor _ _ hwf1 hoor
        rw [hr]
        simp only []
        rw [hcid]
        unfold runChildren
        simp

theorem resolvePass_ok_elim (doc : GDoc) (st' : RState)
    (h : resolvePass doc = .ok st') :
    resolveNode (doc.nodes.length + 1) 0 (initState doc) 0
      = some (.ok st') := by
  unfold resolvePass at h
  cases hres : resolveNode (doc.nodes.length + 1) 0 (initState doc) 0 with
  | none =>
    rw [hres] at h
    simp at h
  | some r =>
    rw [hres] at h
    cases r with
    | error e => simp at h
    | ok st1 =>
      simp only [] at h
      injection h with h1
      subst h1
      rfl

theorem initState_wf (doc : GDoc) : WFState (initState doc) := by
  intro i _
  rfl

theorem unvisited_init (doc : GDoc) :
    unvisitedCount (initState doc) = doc.nodes.length := by
  unfold unvisitedCount initState
  simp


/-- Every error `traverseSegs` throws is the source's line-39 message
naming the full reference string. -/
theorem traverseSegs_error_msg (st : RState) (r : String) :
    ∀ (segs : List String) (cur : GFieldVal) (e : String),
      traverseSegs st r cur segs = .error e → e = unresolvedMsg r := by
  intro segs
  induction segs with
  | nil =>
    intro cur e h
    simp [traverseSegs] at h
  | cons seg rest ih =>
    intro cur e h
    unfold traverseSegs at h
    simp only [] at h
    cases cur with
    | prim t =>
      simp only [] at h
      exact (Except.error.inj h).symm
    | child id =>
      simp only [] at h
      cases hl : lookupFieldP st (st.nodes.length + 1) id seg with
      | none =>
        rw [hl] at h
        simp only [] at h
        exact (Except.error.inj h).symm
      | some v =>
        rw [hl] at h
        simp only [] at h
        by_cases ht : v.truthyF = true
        · rw [if_pos ht] at h
          exact ih v e h
        · rw [if_neg ht] at h
          exact (Except.error.inj h).symm

/-- Every error the traversal of a root-relative pointer throws names
that pointer: the line-39 resolution failure, or the `setPrototypeOf`
TypeError of a traversal ending on a primitive. -/
theorem traverseRef_error_msg (st : RState) (root : Nat) (r e : String)
    (h : traverseRef st root r = .error e) :
    e = unresolvedMsg r
    ∨ e = "TypeError: Object prototype may only be an Object or null: "
          ++ r := by
  unfold traverseRef at h
  cases hts : traverseSegs st r (.child root)
      (splitOnChar '/' (r.drop 2).data) with
  | error e1 =>
    rw [hts] at h
    simp only [] at h
    exact Or.inl ((Except.error.inj h).symm.trans
      (traverseSegs_error_msg st r _ _ e1 hts))
  | ok v =>
    rw [hts] at h
    cases v with
    | child id => exact Except.noConfusion h
    | prim t =>
      simp only [] at h
      exact Or.inr (Except.error.inj h).symm

/-- When the pass processes an unvisited node carrying a non-bare
root-relative pointer whose traversal fails, it throws that traversal's
error. -/
theorem resolveNode_unresolvable_step (fuel root : Nat) (st : RState)
    (id : Nat) (r e : String)
    (hv : st.visited.contains id = false)
    (hr : nodeRef st id = some r)
    (hne : (r == "#") = false)
    (hh : startsHash r = true)
    (htr : traverseRef (markVisited st id) root r = .error e) :
    resolveNode (fuel + 1) root st id = some (.error e) := by
  unfold resolveNode
  rw [if_neg (by rw [hv]; exact Bool.false_ne_true)]
  simp only []
  have hr1 : nodeRef (markVisited st id) id = some r := hr
  rw [hr1]
  simp only []
  rw [if_neg (by simp [hne]), if_pos hh, htr]

/-- C5 counterexample: the C5 document contains the root-relative pointer
`#/nope`, which cannot be traversed to a valid node — yet the resolution
pass SUCCEEDS (the parser is built) and the pointer survives in the
resolved schema: the node holding it hides behind a bare-root `#`
reference, whose handling returns before visiting the node's other
members. -/
theorem C5_counterexample :
    resolvePass exC5doc = .ok stC5
    ∧ nodeRef stC5 3 = some "#/nope"
    ∧ startsHash "#/nope" = true
    ∧ traverseRef stC5 0 "#/nope" = .error (unresolvedMsg "#/nope")
    ∧ (3 : Nat) ∉ stC5.visited :=
  ⟨rfl, rfl, rfl, rfl, by decide⟩

/-- C5 as amended.  Failure side: whenever the pass processes a node
carrying a root-relative pointer (other than the bare `#`) it cannot
traverse, it throws, and the error names the pointer — the line-39
resolution message or the `setPrototypeOf` TypeError; concretely,
construction on a document whose reachable node holds `#/nope` fails
with that pointer's error, so no parser is produced.  Success side:
when construction succeeds, every node the pass actually visited
retains no root-relative pointer other than the bare `#` (such pointers
were traversed, linked and deleted); pointers on nodes the pass never
visits may remain unresolved, as the counterexample shows. -/
theorem C5_resolution_amended :
    (∀ (fuel root : Nat) (st : RState) (id : Nat) (r e : String),
        st.visited.contains id = false →
        nodeRef st id = some r →
        (r == "#") = false →
        startsHash r = true →
        traverseRef (markVisited st id) root r = .error e →
        resolveNode (fuel + 1) root st id = some (.error e)
        ∧ (e = unresolvedMsg r
           ∨ e = "TypeError: Object prototype may only be an Object or null: "
                 ++ r))
    ∧ resolvePass exC5faildoc = .error (unresolvedMsg "#/nope")
    ∧ (∀ (doc : GDoc) (st' : RState), resolvePass doc = .ok st' →
        ∀ i ∈ st'.visited, ∀ r, nodeRef st' i = some r →
          r = "#" ∨ startsHash r = false) := by
  refine ⟨?_, rfl, ?_⟩
  · intro fuel root st id r e hv hr hne hh htr
    exact ⟨resolveNode_unresolvable_step fuel root st id r e hv hr hne hh htr,
           traverseRef_error_msg _ root r e htr⟩
  · intro doc st' h
    have hres := resolvePass_ok_elim doc st' h
    have hinv := resolveNode_inv _ 0 _ 0 st' hres
    intro i hi r hr
    exact hinv.2.2.2.2.2.2.2.2.1 i hi (by intro hc; cases hc) r hr

/-- C5 witness: the failure-side clause applied at the failing
document's unresolvable node, and the success-side clause applied at
the C5 document's successful pass, for the visited node whose reference
is the bare root. -/
theorem C5_witness :
    resolveNode 1 0 (initState exC5faildoc) 2 =
      some (.error (unresolvedMsg "#/nope"))
    ∧ ("#" = "#" ∨ startsHash "#" = false) :=
  ⟨(C5_resolution_amended.1 0 0 (initState exC5faildoc) 2 "#/nope"
      (unresolvedMsg "#/nope") rfl rfl rfl rfl rfl).1,
   C5_resolution_amended.2.2 exC5doc stC5 rfl 2 (by decide) "#" rfl⟩

/-- C9: reference resolution terminates on every schema document — with
fuel `nodes + 1` the pass never exhausts its fuel, because the visited
set guarantees each node is processed at most once (the visited list of
a successful pass is duplicate-free); and the referencing node becomes an
alias of the target rather than a copy: the node count is preserved,
a visited node whose pointer was the bare root ends proto-linked to the
root, and on the circular binary-tree document (the shape of the
repository's circular-reference tests) the three referencing nodes all
end linked to the one shared definition node. -/
theorem C9_resolution_terminates :
    (∀ doc : GDoc,
      (resolveNode (doc.nodes.length + 1) 0 (initState doc) 0).isSome
        = true)
    ∧ (∀ (doc : GDoc) (st' : RState), resolvePass doc = .ok st' →
        st'.visited.Nodup ∧ st'.nodes.length = doc.nodes.length)
    ∧ (∀ (doc : GDoc) (st' : RState), resolvePass doc = .ok st' →
        ∀ j ∈ st'.visited, nodeRef (initState doc) j = some "#" →
          protoOf st' j = some 0)
    ∧ (resolvePass exC9doc = .ok stC9
       ∧ protoOf stC9 3 = some 4 ∧ protoOf stC9 7 = some 4
       ∧ protoOf stC9 8 = some 4
       ∧ stC9.nodes.length = exC9doc.nodes.length) := by
  refine ⟨?_, ?_, ?_, rfl, rfl, rfl, rfl, rfl⟩
  · intro doc
    have h := resolveNode_some (doc.nodes.length + 1) 0 (initState doc) 0
      (initState_wf doc) (by rw [unvisited_init]; omega)
    cases hres : resolveNode (doc.nodes.length + 1) 0 (initState doc) 0 with
    | none => exact absurd hres h
    | some r => rfl
  · intro doc st' h
    have hres := resolvePass_ok_elim doc st' h
    have hinv := resolveNode_inv _ 0 _ 0 st' hres
    exact ⟨hinv.2.2.2.1 List.nodup_nil, hinv.2.1⟩
  · intro doc st' h
    have hres := resolvePass_ok_elim doc st' h
    have hinv := resolveNode_inv _ 0 _ 0 st' hres
    intro j hj hr
    exact hinv.2.2.2.2.2.2.2.1 j hj (by intro hc; cases hc) hr

/-- C9 witness: the duplicate-free visited list and preserved node count
of the circular document's pass. -/
theorem C9_witness :
    stC9.visited.Nodup ∧ stC9.nodes.length = exC9doc.nodes.length :=
  C9_resolution_terminates.2.1 exC9doc stC9 rfl
